import Mathlib

/-!
Verification of the private-key packet codec, legacy v3 signature codec and
algorithm registry of the `openpgp` repository (a fork of
`golang.org/x/crypto/openpgp`).

Shallow embedding conventions:
* Go byte slices are `List Nat` (each element a byte value).
* Go `uint16`/`uint32` arithmetic is `Nat` arithmetic with explicit `% 2^16`
  / `% 2^32`.
* Go methods that mutate their receiver are functions returning the new
  receiver state together with an `Option Error`; an error path that in Go
  returns before assigning receiver fields returns the receiver unchanged.
* A Go runtime panic (nil-interface method call, `panic(...)`) is modelled by
  the distinguished `Error.panicked` outcome.
* External collaborators (the S2K deriver, the symmetric cipher in CFB mode,
  the cipher registry) are function-valued fields / parameters, as the spec
  treats them as out of scope.
-/

namespace OpenPGP

/-! ## Errors

Modelled from the spec: the error taxonomy of the `errors` package
(StructuralError, UnsupportedError, InvalidArgumentError), plus the
`crypto/rsa` validation errors, propagated I/O errors (`io.ErrUnexpectedEOF`
from short reads), and Go runtime panics. -/

inductive Error where
  | structural (msg : String)
  | unsupported (msg : String)
  | invalidArgument (msg : String)
  | validation (msg : String)
  | ioUnexpectedEOF
  | panicked (msg : String)
deriving DecidableEq

/-! ## Big-endian byte strings and bit lengths -/

/-- Big-endian bytes to natural number: models `big.Int.SetBytes`. -/
def beBytesToNat (l : List Nat) : Nat :=
  l.foldl (fun acc b => acc * 256 + b) 0

/-- Little-endian base-256 digits of `n`, with explicit fuel (first argument)
so the definition is structural and kernel-reducible; `fuel ≥ n` suffices. -/
def natLEDigits : Nat → Nat → List Nat
  | 0, _ => []
  | fuel + 1, n => if n = 0 then [] else n % 256 :: natLEDigits fuel (n / 256)

/-- Minimal big-endian byte representation of `n`: models `big.Int.Bytes`
(empty for zero, no leading zero byte otherwise). -/
def natToBEBytes (n : Nat) : List Nat :=
  (natLEDigits n n).reverse

/-- Bit length of a single byte value (position of its highest set bit). -/
def bitLen8 (b : Nat) : Nat :=
  if 128 ≤ b then 8 else if 64 ≤ b then 7 else if 32 ≤ b then 6
  else if 16 ≤ b then 5 else if 8 ≤ b then 4 else if 4 ≤ b then 3
  else if 2 ≤ b then 2 else if 1 ≤ b then 1 else 0

/-- Bit length of a minimal big-endian byte string. -/
def beBytesBitLen : List Nat → Nat
  | [] => 0
  | b :: t => 8 * t.length + bitLen8 b

/-- Bit length of a natural number: models `big.Int.BitLen`. -/
def natBitLen (n : Nat) : Nat :=
  beBytesBitLen (natToBEBytes n)

/-! ### Lemmas about the byte representation -/

/-- Little-endian bytes to natural number (helper for reasoning). -/
def leBytesToNat : List Nat → Nat
  | [] => 0
  | b :: t => b + 256 * leBytesToNat t

theorem beBytesToNat_append_singleton (l : List Nat) (b : Nat) :
    beBytesToNat (l ++ [b]) = beBytesToNat l * 256 + b := by
  simp [beBytesToNat, List.foldl_append]

theorem beBytesToNat_reverse (l : List Nat) :
    beBytesToNat l.reverse = leBytesToNat l := by
  induction l with
  | nil => rfl
  | cons b t ih =>
      simp only [List.reverse_cons, beBytesToNat_append_singleton, ih,
        leBytesToNat]
      omega

theorem natLEDigits_zero (fuel : Nat) : natLEDigits fuel 0 = [] := by
  cases fuel <;> simp [natLEDigits]

theorem leBytesToNat_natLEDigits (fuel n : Nat) (h : n ≤ fuel) :
    leBytesToNat (natLEDigits fuel n) = n := by
  induction fuel generalizing n with
  | zero => interval_cases n; rfl
  | succ fuel ih =>
      by_cases hn : n = 0
      · subst hn; simp [natLEDigits, leBytesToNat]
      · have hdiv : n / 256 ≤ fuel := by
          have : n / 256 < n := Nat.div_lt_self (Nat.pos_of_ne_zero hn) (by omega)
          omega
        simp only [natLEDigits, if_neg hn, leBytesToNat, ih _ hdiv]
        omega

/-- Round trip: decoding the minimal big-endian bytes of `n` gives back `n`.
Models `SetBytes(b.Bytes()) = b` for non-negative big integers. -/
theorem beBytesToNat_natToBEBytes (n : Nat) :
    beBytesToNat (natToBEBytes n) = n := by
  simp [natToBEBytes, beBytesToNat_reverse, leBytesToNat_natLEDigits n n le_rfl]

theorem natLEDigits_last_ne_zero (fuel n : Nat) (h : n ≤ fuel) (hn : n ≠ 0) :
    ∃ b t, (natLEDigits fuel n).reverse = b :: t ∧ b ≠ 0 := by
  induction fuel generalizing n with
  | zero => omega
  | succ fuel ih =>
      by_cases hq : n / 256 = 0
      · refine ⟨n % 256, [], ?_, ?_⟩
        · simp [natLEDigits, if_neg hn, hq, natLEDigits_zero]
        · have hlt : n < 256 := by
            rcases Nat.lt_or_ge n 256 with h' | h'
            · exact h'
            · exact absurd (Nat.div_eq_zero_iff (by omega) |>.mp hq) (by omega)
          omega
      · have hdiv : n / 256 ≤ fuel := by
          have : n / 256 < n := Nat.div_lt_self (Nat.pos_of_ne_zero hn) (by omega)
          omega
        obtain ⟨b, t, hbt, hb⟩ := ih (n / 256) hdiv hq
        refine ⟨b, t ++ [n % 256], ?_, hb⟩
        simp [natLEDigits, if_neg hn, hbt]

theorem bitLen8_le_eight (b : Nat) : bitLen8 b ≤ 8 := by
  unfold bitLen8
  repeat' split
  all_goals omega

theorem bitLen8_pos (b : Nat) (hb : b ≠ 0) : 1 ≤ bitLen8 b := by
  unfold bitLen8
  repeat' split
  all_goals omega

/-- The number of bytes of the minimal representation is `⌈bitlen/8⌉`,
matching how the MPI decoder recovers the byte count from the bit-length
prefix. -/
theorem natBitLen_div_eq_length (n : Nat) :
    (natBitLen n + 7) / 8 = (natToBEBytes n).length := by
  by_cases hn : n = 0
  · subst hn; simp [natBitLen, natToBEBytes, natLEDigits_zero, beBytesBitLen]
  · obtain ⟨b, t, hbt, hb⟩ := natLEDigits_last_ne_zero n n le_rfl hn
    have hlen : (natToBEBytes n).length = t.length + 1 := by
      simp [natToBEBytes, hbt]
    have hbl : natBitLen n = 8 * t.length + bitLen8 b := by
      simp [natBitLen, natToBEBytes, hbt, beBytesBitLen]
    have h1 := bitLen8_pos b hb
    have h2 := bitLen8_le_eight b
    rw [hbl, hlen]
    omega

/-! ## MPI wire encoding

Modelled from the spec: the shared big-integer wire format of the `encoding`
package (not under `src/`): a 2-byte big-endian bit-length prefix followed by
`⌈bits/8⌉` bytes, most significant first.  `SetBig` stores
`uint16(b.BitLen())` and `b.Bytes()`; `ReadFrom` reads the prefix, computes
the byte count, and reads that many bytes, surfacing a short read as an I/O
error which the packet code propagates unchanged. -/

/-- Wire bytes produced by `new(encoding.MPI).SetBig(n).WriteTo(w)`. -/
def mpiEncode (n : Nat) : List Nat :=
  let bl := natBitLen n % 65536
  bl / 256 :: bl % 256 :: natToBEBytes n

/-- Wire decoding by `MPI.ReadFrom`: returns the raw value bytes (what
`Bytes()` exposes) and the unconsumed remainder of the input. -/
def mpiDecode (data : List Nat) : Except Error (List Nat × List Nat) :=
  match data with
  | b0 :: b1 :: rest =>
      let numBytes := (b0 * 256 + b1 + 7) / 8
      if numBytes ≤ rest.length then
        Except.ok (rest.take numBytes, rest.drop numBytes)
      else
        Except.error Error.ioUnexpectedEOF
  | _ => Except.error Error.ioUnexpectedEOF

/-- MPI round trip: decoding an encoded value recovers its bytes exactly and
consumes nothing further, provided the bit length fits the 2-byte prefix. -/
theorem mpiDecode_mpiEncode (n : Nat) (rest : List Nat)
    (h : natBitLen n < 65536) :
    mpiDecode (mpiEncode n ++ rest) =
      Except.ok (natToBEBytes n, rest) := by
  have hmod : natBitLen n % 65536 = natBitLen n := Nat.mod_eq_of_lt h
  have hbl : natBitLen n % 65536 / 256 * 256 + natBitLen n % 65536 % 256
      = natBitLen n := by rw [hmod]; omega
  have hlen := natBitLen_div_eq_length n
  simp only [mpiEncode, mpiDecode, List.cons_append, hbl, hlen]
  rw [if_pos (by simp)]
  rw [List.take_left' rfl, List.drop_left' rfl]

/-! ## Public-key algorithms and key material

The packet-level algorithm tags (`PubKeyAlgoRSA`, ...) are byte constants in
the packet package (not under `src/`); the values below follow RFC 4880
section 9.1 as the spec's registry describes.  `unknown` keeps the byte for
ids outside the switch, so the `panic("impossible")` arm of
`parsePrivateKey` stays representable. -/

inductive PubKeyAlgo where
  | rsa
  | rsaEncryptOnly
  | rsaSignOnly
  | elgamal
  | dsa
  | ecdsa
  | unknown (id : Nat)
deriving DecidableEq

structure RSAPublicKey where
  n : Nat
  e : Nat
deriving DecidableEq

/-- Models `crypto/rsa.PrivateKey` restricted to the fields this codec
reads and writes: the public key, the secret exponent `D`, the two-element
`Primes` slice and the precomputed CRT coefficient `Qinv`. -/
structure RSAPrivateKey where
  pub : RSAPublicKey
  d : Nat
  primes : List Nat
  qinv : Nat
deriving DecidableEq

structure DSAPublicKey where
  p : Nat
  q : Nat
  g : Nat
  y : Nat
deriving DecidableEq

structure ElGamalPublicKey where
  g : Nat
  p : Nat
  y : Nat
deriving DecidableEq

/-- The curve is identified by a numeric tag; only the scalar matters here. -/
structure ECDSAPublicKey where
  curve : Nat
  x : Nat
  y : Nat
deriving DecidableEq

/-- The dynamically typed `PublicKey.PublicKey interface{}` field. -/
inductive PubMaterial where
  | rsa (pub : RSAPublicKey)
  | dsa (pub : DSAPublicKey)
  | elgamal (pub : ElGamalPublicKey)
  | ecdsa (pub : ECDSAPublicKey)
deriving DecidableEq

/-- Type assertion `pk.PublicKey.PublicKey.(*rsa.PublicKey)`. -/
def PubMaterial.asRSA : PubMaterial → Option RSAPublicKey
  | .rsa pub => some pub
  | _ => none

def PubMaterial.asDSA : PubMaterial → Option DSAPublicKey
  | .dsa pub => some pub
  | _ => none

def PubMaterial.asElGamal : PubMaterial → Option ElGamalPublicKey
  | .elgamal pub => some pub
  | _ => none

def PubMaterial.asECDSA : PubMaterial → Option ECDSAPublicKey
  | .ecdsa pub => some pub
  | _ => none

/-- The dynamically typed `PrivateKey.PrivateKey interface{}` field: an
`*rsa.PrivateKey`, `*dsa.PrivateKey`, `*elgamal.PrivateKey` or
`*ecdsa.PrivateKey` (each of the last three is its public key plus one
secret scalar). -/
inductive PrivMaterial where
  | rsa (priv : RSAPrivateKey)
  | dsa (pub : DSAPublicKey) (x : Nat)
  | elgamal (pub : ElGamalPublicKey) (x : Nat)
  | ecdsa (pub : ECDSAPublicKey) (d : Nat)
deriving DecidableEq

/-- The embedded, already-parsed public-key portion of the packet (the
public-key parser itself is an external collaborator). -/
structure PublicKey where
  pubKeyAlgo : PubKeyAlgo
  material : PubMaterial
  isSubkey : Bool

/-! ## RSA validation and precomputation

Modelled from the spec: `crypto/rsa`'s `Validate` ("validate consistency
(modulus equals product of primes, exponent well-formed) before accepting; a
prime equal to 1 must be rejected as a validation error") and `Precompute`
("reconstruct the full private key (including the CRT coefficient)").
`Validate` first checks the public exponent bounds, then that every prime
exceeds 1, then the modulus product, then `d·e ≡ 1` modulo each `prime - 1`,
returning the first failure. -/

def checkPub (pub : RSAPublicKey) : Option Error :=
  if pub.e < 2 then some (.validation "crypto/rsa: public exponent too small")
  else if 2 ^ 31 - 1 < pub.e then
    some (.validation "crypto/rsa: public exponent too large")
  else none

def RSAPrivateKey.Validate (priv : RSAPrivateKey) : Option Error :=
  match checkPub priv.pub with
  | some e => some e
  | none =>
      if priv.primes.any (fun p => p ≤ 1) then
        some (.validation "crypto/rsa: invalid prime value")
      else if priv.primes.foldl (fun m p => m * p) 1 ≠ priv.pub.n then
        some (.validation "crypto/rsa: invalid modulus")
      else if priv.primes.any (fun p => priv.d * priv.pub.e % (p - 1) ≠ 1) then
        some (.validation "crypto/rsa: invalid exponents")
      else none

/-- Modular inverse of `a` modulo `n`, as `big.Int.ModInverse(a, n)`:
returns the unique inverse below `n` when it exists; when no inverse exists
(where Go leaves the result nil) it returns 0.  Brute force keeps it
kernel-computable at the small sizes exercised here. -/
def modInverse (a n : Nat) : Nat :=
  (((List.range n).find? (fun x => a * x % n == 1)).getD 0)

/-- Models `rsa.PrivateKey.Precompute` on the fields used here:
`Qinv = ModInverse(Primes[1], Primes[0])`. -/
def RSAPrivateKey.Precompute (priv : RSAPrivateKey) : RSAPrivateKey :=
  { priv with qinv := modInverse (priv.primes.getD 1 0) (priv.primes.getD 0 0) }

/-! ## SHA-1

Models `crypto/sha1` (an external collaborator of the codec): padding,
message schedule and compression, on `Nat` with explicit `% 2^32`. -/

/-- Left rotation of a 32-bit word (argument below `2^32`, `1 ≤ k ≤ 31`). -/
def rotl32 (k n : Nat) : Nat :=
  n * 2 ^ k % 4294967296 + n / 2 ^ (32 - k)

/-- Big-endian 8-byte encoding of a (below `2^64`) length in bits. -/
def be64 (n : Nat) : List Nat :=
  [n / 2 ^ 56 % 256, n / 2 ^ 48 % 256, n / 2 ^ 40 % 256, n / 2 ^ 32 % 256,
   n / 2 ^ 24 % 256, n / 2 ^ 16 % 256, n / 2 ^ 8 % 256, n % 256]

/-- Big-endian 4-byte encoding of a 32-bit word. -/
def be32 (n : Nat) : List Nat :=
  [n / 2 ^ 24 % 256, n / 2 ^ 16 % 256, n / 2 ^ 8 % 256, n % 256]

/-- SHA-1 padding: `0x80`, zeros to 56 mod 64, 8-byte bit length. -/
def sha1Pad (msg : List Nat) : List Nat :=
  msg ++ 128 :: List.replicate ((119 - msg.length % 64) % 64) 0
      ++ be64 (8 * msg.length)

/-- Group bytes into big-endian 32-bit words. -/
def bytesToWords : List Nat → List Nat
  | b0 :: b1 :: b2 :: b3 :: rest =>
      (((b0 * 256 + b1) * 256 + b2) * 256 + b3) :: bytesToWords rest
  | _ => []

/-- Split into 64-byte blocks (fuel keeps the recursion structural). -/
def chunks64 : Nat → List Nat → List (List Nat)
  | 0, _ => []
  | _, [] => []
  | fuel + 1, l => l.take 64 :: chunks64 fuel (l.drop 64)

/-- Extend the 16-word schedule by `fuel` further words. -/
def sha1Extend : Nat → List Nat → List Nat
  | 0, ws => ws
  | fuel + 1, ws =>
      let L := ws.length
      let w := rotl32 1 (ws.getD (L - 3) 0 ^^^ ws.getD (L - 8) 0 ^^^
        ws.getD (L - 14) 0 ^^^ ws.getD (L - 16) 0)
      sha1Extend fuel (ws ++ [w])

/-- Round function (complement of a 32-bit word is xor with all ones). -/
def sha1F (i b c d : Nat) : Nat :=
  if i < 20 then b &&& c ||| (b ^^^ 4294967295) &&& d
  else if i < 40 then b ^^^ c ^^^ d
  else if i < 60 then b &&& c ||| b &&& d ||| c &&& d
  else b ^^^ c ^^^ d

def sha1K (i : Nat) : Nat :=
  if i < 20 then 0x5A827999
  else if i < 40 then 0x6ED9EBA1
  else if i < 60 then 0x8F1BBCDC
  else 0xCA62C1D6

/-- One 64-byte block over the running state `(h0, .., h4)`. -/
def sha1Block (h : Nat × Nat × Nat × Nat × Nat) (block : List Nat) :
    Nat × Nat × Nat × Nat × Nat :=
  let ws := sha1Extend 64 (bytesToWords block)
  let (h0, h1, h2, h3, h4) := h
  let step := fun (st : Nat × Nat × Nat × Nat × Nat) (i : Nat) =>
    let (a, b, c, d, e) := st
    let temp := (rotl32 5 a + sha1F i b c d + e + sha1K i + ws.getD i 0) %
      4294967296
    (temp, a, rotl32 30 b, c, d)
  let (a, b, c, d, e) := (List.range 80).foldl step (h0, h1, h2, h3, h4)
  ((h0 + a) % 4294967296, (h1 + b) % 4294967296, (h2 + c) % 4294967296,
   (h3 + d) % 4294967296, (h4 + e) % 4294967296)

/-- SHA-1 digest (20 bytes) of a byte string. -/
def sha1 (msg : List Nat) : List Nat :=
  let padded := sha1Pad msg
  let blocks := chunks64 padded.length padded
  let h := blocks.foldl sha1Block
    (0x67452301, 0xEFCDAB89, 0x98BADCFE, 0x10325476, 0xC3D2E1F0)
  be32 h.1 ++ be32 h.2.1 ++ be32 h.2.2.1 ++ be32 h.2.2.2.1 ++ be32 h.2.2.2.2

/-! ## Ciphers and the private-key packet state

`algorithm.Cipher` is an interface (its registry `algorithm.CipherById`
lives outside `src/`); a handle carries the protocol id, the key and block
sizes, and the composite CFB decryption the codec performs with it
(`cipher.NewCFBDecrypter(c.New(key), iv).XORKeyStream`), as a function of
key, IV and ciphertext. -/

structure Cipher where
  id : Nat
  keySize : Nat
  blockSize : Nat
  cfbDecrypt : List Nat → List Nat → List Nat → List Nat

/-- The `packet.PrivateKey` struct.  `privateKey` is the Go field named
`PrivateKey`; the nilable `cipher` and `s2k` fields are `Option`s (a nil
dereference surfaces as `Error.panicked`). -/
structure PrivateKey where
  publicKey : PublicKey
  Encrypted : Bool
  encryptedData : List Nat
  cipher : Option Cipher
  s2k : Option (List Nat → List Nat)
  privateKey : Option PrivMaterial
  sha1Checksum : Bool
  iv : List Nat

/-- The zero-valued receiver after the embedded public key was parsed. -/
def PrivateKey.init (pk0 : PublicKey) : PrivateKey :=
  { publicKey := pk0, Encrypted := false, encryptedData := [],
    cipher := none, s2k := none, privateKey := none,
    sha1Checksum := false, iv := [] }

/-! ## Serialization (unencrypted form only) -/

/-- Go `mod64kHash`: 16-bit additive checksum of the secret key bytes. -/
def mod64kHash (d : List Nat) : Nat :=
  d.foldl (fun h b => (h + b) % 65536) 0

/-- Go `serializeRSAPrivateKey`: MPIs of `D`, `Primes[1]`, `Primes[0]`,
`Precomputed.Qinv`, in that order. -/
def serializeRSAPrivateKey (priv : RSAPrivateKey) : List Nat :=
  mpiEncode priv.d ++ mpiEncode (priv.primes.getD 1 0) ++
    mpiEncode (priv.primes.getD 0 0) ++ mpiEncode priv.qinv

/-- Go `serializeDSAPrivateKey`: the single MPI of `X`. -/
def serializeDSAPrivateKey (x : Nat) : List Nat :=
  mpiEncode x

/-- Go `serializeElGamalPrivateKey`: the single MPI of `X`. -/
def serializeElGamalPrivateKey (x : Nat) : List Nat :=
  mpiEncode x

/-- Go `serializeECDSAPrivateKey`: the single MPI of `D`. -/
def serializeECDSAPrivateKey (d : Nat) : List Nat :=
  mpiEncode d

/-- Go `PrivateKey.Serialize`, the packet body after the framing header (the
header writer `serializeHeader` is an external collaborator and the packet
type only selects the tag): the serialized public-key portion `pubBytes`
(produced by the external `serializeWithoutHeaders`), the zero usage byte,
the algorithm-specific secret MPIs, and the trailing 2-byte additive
checksum.  An unrecognized key type is an invalid-argument error. -/
def PrivateKey.SerializeBody (pubBytes : List Nat) (pk : PrivateKey) :
    Except Error (List Nat) :=
  let privBytes? : Except Error (List Nat) :=
    match pk.privateKey with
    | some (.rsa priv) => .ok (serializeRSAPrivateKey priv)
    | some (.dsa _ x) => .ok (serializeDSAPrivateKey x)
    | some (.elgamal _ x) => .ok (serializeElGamalPrivateKey x)
    | some (.ecdsa _ d) => .ok (serializeECDSAPrivateKey d)
    | none => .error (.invalidArgument "unknown private key type")
  match privBytes? with
  | .error e => .error e
  | .ok privBytes =>
      let ck := mod64kHash privBytes
      .ok (pubBytes ++ 0 :: privBytes ++ [ck / 256, ck % 256])

/-! ## Key-material parsing -/

/-- Go `parseRSAPrivateKey`: reads the MPIs of `d`, `p`, `q` in order, stores
them as `D`, `Primes[0]`, `Primes[1]`, validates, precomputes, and only
then installs the key material and clears the encrypted state. -/
def PrivateKey.parseRSAPrivateKey (pk : PrivateKey) (data : List Nat) :
    PrivateKey × Option Error :=
  match pk.publicKey.material.asRSA with
  | none => (pk, some (.panicked "interface conversion"))
  | some rsaPub =>
    match mpiDecode data with
    | .error e => (pk, some e)
    | .ok (dBytes, r1) =>
      match mpiDecode r1 with
      | .error e => (pk, some e)
      | .ok (pBytes, r2) =>
        match mpiDecode r2 with
        | .error e => (pk, some e)
        | .ok (qBytes, _) =>
          let rsaPriv : RSAPrivateKey :=
            { pub := rsaPub, d := beBytesToNat dBytes,
              primes := [beBytesToNat pBytes, beBytesToNat qBytes],
              qinv := 0 }
          match rsaPriv.Validate with
          | some e => (pk, some e)
          | none =>
              ({ pk with
                  privateKey := some (.rsa rsaPriv.Precompute)
                  Encrypted := false
                  encryptedData := [] }, none)

/-- Go `parseDSAPrivateKey`: one MPI into `X`, no further validation. -/
def PrivateKey.parseDSAPrivateKey (pk : PrivateKey) (data : List Nat) :
    PrivateKey × Option Error :=
  match pk.publicKey.material.asDSA with
  | none => (pk, some (.panicked "interface conversion"))
  | some dsaPub =>
    match mpiDecode data with
    | .error e => (pk, some e)
    | .ok (xBytes, _) =>
        ({ pk with
            privateKey := some (.dsa dsaPub (beBytesToNat xBytes))
            Encrypted := false
            encryptedData := [] }, none)

/-- Go `parseElGamalPrivateKey`: one MPI into `X`, no further validation. -/
def PrivateKey.parseElGamalPrivateKey (pk : PrivateKey) (data : List Nat) :
    PrivateKey × Option Error :=
  match pk.publicKey.material.asElGamal with
  | none => (pk, some (.panicked "interface conversion"))
  | some pub =>
    match mpiDecode data with
    | .error e => (pk, some e)
    | .ok (xBytes, _) =>
        ({ pk with
            privateKey := some (.elgamal pub (beBytesToNat xBytes))
            Encrypted := false
            encryptedData := [] }, none)

/-- Go `parseECDSAPrivateKey`: one MPI into `D`, no further validation. -/
def PrivateKey.parseECDSAPrivateKey (pk : PrivateKey) (data : List Nat) :
    PrivateKey × Option Error :=
  match pk.publicKey.material.asECDSA with
  | none => (pk, some (.panicked "interface conversion"))
  | some pub =>
    match mpiDecode data with
    | .error e => (pk, some e)
    | .ok (dBytes, _) =>
        ({ pk with
            privateKey := some (.ecdsa pub (beBytesToNat dBytes))
            Encrypted := false
            encryptedData := [] }, none)

/-- Go `parsePrivateKey`: dispatch on the recorded public-key algorithm; an id
outside the switch hits `panic("impossible")`. -/
def PrivateKey.parsePrivateKey (pk : PrivateKey) (data : List Nat) :
    PrivateKey × Option Error :=
  match pk.publicKey.pubKeyAlgo with
  | .rsa | .rsaSignOnly | .rsaEncryptOnly => pk.parseRSAPrivateKey data
  | .dsa => pk.parseDSAPrivateKey data
  | .elgamal => pk.parseElGamalPrivateKey data
  | .ecdsa => pk.parseECDSAPrivateKey data
  | .unknown _ => (pk, some (.panicked "impossible"))

/-! ## Decrypt -/

/-- Go `PrivateKey.Decrypt`: no-op on an already-decrypted packet; otherwise
derive the key, CFB-decrypt the blob, verify the mode's integrity trailer
(`uint8(sum >> 8)` of a 16-bit sum is `sum / 256`, `uint8(sum)` is
`sum % 256`), strip it, and parse the plaintext key material. -/
def PrivateKey.Decrypt (pk : PrivateKey) (passphrase : List Nat) :
    PrivateKey × Option Error :=
  if pk.Encrypted then
    match pk.cipher, pk.s2k with
    | some c, some s2kf =>
      let key := s2kf passphrase
      let data := c.cfbDecrypt key pk.iv pk.encryptedData
      if pk.sha1Checksum then
        if data.length < 20 then
          (pk, some (.structural "truncated private key data"))
        else if sha1 (data.take (data.length - 20)) ≠
            data.drop (data.length - 20) then
          (pk, some (.structural "private key checksum failure"))
        else
          pk.parsePrivateKey (data.take (data.length - 20))
      else
        if data.length < 2 then
          (pk, some (.structural "truncated private key data"))
        else
          let sum := (data.take (data.length - 2)).foldl
            (fun s b => (s + b) % 65536) 0
          if data.getD (data.length - 2) 0 ≠ sum / 256 ∨
              data.getD (data.length - 1) 0 ≠ sum % 256 then
            (pk, some (.structural "private key checksum failure"))
          else
            pk.parsePrivateKey (data.take (data.length - 2))
    | _, _ => (pk, some (.panicked "nil cipher or s2k deriver"))
  else
    (pk, none)

/-! ## Packet parse (after the embedded public-key portion)

The embedded public-key parse and the S2K block parse are external
collaborators: the former is the already-built `pk0`, the latter the
`s2kParse` parameter, which consumes a prefix of its input and returns the
derivation function plus the unconsumed remainder.  `cipherById` stands for
the registry map `algorithm.CipherById`. -/

def PrivateKey.parse (cipherById : Nat → Option Cipher)
    (s2kParse : List Nat → Except Error ((List Nat → List Nat) × List Nat))
    (pk0 : PublicKey) (input : List Nat) : PrivateKey × Option Error :=
  let pk := PrivateKey.init pk0
  match input with
  | [] => (pk, some .ioUnexpectedEOF)
  | s2kType :: r1 =>
    if s2kType = 0 then
      let pk := { pk with Encrypted := false, encryptedData := r1 }
      pk.parsePrivateKey r1
    else if s2kType = 254 ∨ s2kType = 255 then
      match r1 with
      | [] => (pk, some .ioUnexpectedEOF)
      | cipherId :: r2 =>
        match cipherById cipherId with
        | none =>
            (pk, some (.unsupported ("unknown cipher: " ++ toString cipherId)))
        | some c =>
          let pk := { pk with cipher := some c, Encrypted := true }
          match s2kParse r2 with
          | .error e => (pk, some e)
          | .ok (deriver, r3) =>
            let pk := { pk with s2k := some deriver }
            let pk := if s2kType = 254 then { pk with sha1Checksum := true }
              else pk
            if c.blockSize = 0 then
              (pk, some (.unsupported
                ("unsupported cipher in private key: " ++ toString c.id)))
            else if c.blockSize ≤ r3.length then
              ({ pk with
                  iv := r3.take c.blockSize
                  encryptedData := r3.drop c.blockSize }, none)
            else
              (pk, some .ioUnexpectedEOF)
    else
      (pk, some (.unsupported "deprecated s2k function in private key"))

/-! ## Algorithm registry: hashes

From `algorithm/hash.go`.  `CryptoHash` pairs the OpenPGP id with Go's
`crypto.Hash` ordinal; `Intersect` only ever reads `Id()`. -/

structure CryptoHash where
  id : Nat
  hash : Nat
deriving DecidableEq

def MD5 : CryptoHash := ⟨1, 2⟩
def SHA1 : CryptoHash := ⟨2, 3⟩
def RIPEMD160 : CryptoHash := ⟨3, 9⟩
def SHA256 : CryptoHash := ⟨8, 5⟩
def SHA384 : CryptoHash := ⟨9, 6⟩
def SHA512 : CryptoHash := ⟨10, 7⟩
def SHA224 : CryptoHash := ⟨11, 4⟩

/-- The loop body of `HashSlice.Intersect`: Go iterates `i` over the
indices of the receiver slice while writing kept elements back at `j ≤ i`
(reads at index `i` always happen before any write at `j ≤ i`, so they see
the original contents); the inner loop breaks at the first id match, which
is exactly `List.any`.  Fuel (the first argument, instantiated with the
slice length) keeps the recursion structural. -/
def intersectGo : Nat → List CryptoHash → List CryptoHash → Nat → Nat →
    List CryptoHash × Nat
  | 0, arr, _, _, j => (arr, j)
  | fuel + 1, arr, b, i, j =>
    match arr[i]? with
    | none => (arr, j)
    | some v =>
        if b.any (fun v2 => v.id == v2.id) then
          intersectGo fuel (arr.set j v) b (i + 1) (j + 1)
        else
          intersectGo fuel arr b (i + 1) j

/-- Go `HashSlice.Intersect`: runs the loop and returns `hs[:j]`. -/
def HashSlice.Intersect (hs b : List CryptoHash) : List CryptoHash :=
  let res := intersectGo hs.length hs b 0 0
  res.1.take res.2

/-! ## Legacy v3 signature codec

From `signature_v3.go`.  `encoding.Field` values live behind a nilable
interface (`Option MPIField`); a fresh `encoding.MPI` has a nil byte slice,
so `MPIField.bytes` is itself an `Option`.  Calling `Bytes()` through a nil
interface is a Go runtime panic. -/

structure MPIField where
  bytes : Option (List Nat)
deriving DecidableEq

/-- Wire form written by `Field.WriteTo`: bit-length prefix plus bytes
(a nil byte slice writes a zero bit length and no bytes). -/
def MPIField.encodedBytes (f : MPIField) : List Nat :=
  match f.bytes with
  | none => [0, 0]
  | some bs =>
      let bl := beBytesBitLen bs % 65536
      bl / 256 :: bl % 256 :: bs

/-- The algorithm registry handles `algorithm.RSA`, `algorithm.RSASignOnly`,
`algorithm.DSA`, ... that `SignatureV3.Serialize` compares against; ids per
RFC 4880 section 9.1 (the registry table itself is outside `src/`). -/
inductive AlgPublicKey where
  | rsa
  | rsaEncryptOnly
  | rsaSignOnly
  | elgamal
  | dsa
  | ecdh
  | ecdsa
deriving DecidableEq

def AlgPublicKey.algId : AlgPublicKey → Nat
  | .rsa => 1
  | .rsaEncryptOnly => 2
  | .rsaSignOnly => 3
  | .elgamal => 16
  | .dsa => 17
  | .ecdh => 18
  | .ecdsa => 19

/-- Go `packet.SignatureV3`.  `pubKeyAlgo` is a nilable interface field;
`creationTime` is kept as Unix seconds. -/
structure SignatureV3 where
  sigType : Nat
  creationTime : Nat
  issuerKeyId : Nat
  pubKeyAlgo : Option AlgPublicKey
  hashId : Nat
  hashTag : List Nat
  rsaSignature : Option MPIField
  dsaSigR : Option MPIField
  dsaSigS : Option MPIField
deriving DecidableEq

/-- The algorithm-dispatched signature value write at the end of
`SignatureV3.Serialize` (the `switch sig.PubKeyAlgo` statement). -/
def SignatureV3.serializeValue (header : List Nat) (alg : AlgPublicKey)
    (rsaF : MPIField) (dsaR dsaS : Option MPIField) :
    List Nat × Option Error :=
  match alg with
  | .rsa | .rsaSignOnly => (header ++ rsaF.encodedBytes, none)
  | .dsa =>
      match dsaR with
      | none => (header, some (.panicked "nil interface method call"))
      | some rF =>
        match dsaS with
        | none =>
            (header ++ rF.encodedBytes,
             some (.panicked "nil interface method call"))
        | some sF => (header ++ rF.encodedBytes ++ sF.encodedBytes, none)
  | _ => (header, some (.panicked "impossible"))

/-- Go `SignatureV3.Serialize`: returns the bytes written to `w` before the
call finished, plus the outcome.  The header fields (5 + 8 + 4 bytes) are
written before the populated-signature guard runs; the guard itself calls
`Bytes()` on the `RSASignature` interface (and, when that yields nil, on
`DSASigR`), so a nil interface there panics instead of reaching the
invalid-argument return. -/
def SignatureV3.Serialize (sig : SignatureV3) : List Nat × Option Error :=
  let five := sig.sigType % 256 :: be32 (sig.creationTime % 4294967296)
  let eight := be64 (sig.issuerKeyId % 18446744073709551616)
  match sig.pubKeyAlgo with
  | none => (five ++ eight, some (.panicked "nil interface method call"))
  | some alg =>
    let four := [alg.algId % 256, sig.hashId % 256] ++ sig.hashTag.take 2
    let header := five ++ eight ++ four
    match sig.rsaSignature with
    | none => (header, some (.panicked "nil interface method call"))
    | some rsaF =>
      if rsaF.bytes = none then
        match sig.dsaSigR with
        | none => (header, some (.panicked "nil interface method call"))
        | some rF =>
          if rF.bytes = none then
            (header, some (.invalidArgument
              "Signature: need to call Sign, SignUserId or SignKey before Serialize"))
          else
            SignatureV3.serializeValue header alg rsaF sig.dsaSigR sig.dsaSigS
      else
        SignatureV3.serializeValue header alg rsaF sig.dsaSigR sig.dsaSigS

/-! ## Helper lemmas: error paths leave the receiver untouched

Each key-material parser assigns receiver fields only after every read and
validation step has succeeded, so any error outcome carries the unchanged
receiver. -/

theorem parseRSAPrivateKey_cases (pk : PrivateKey) (data : List Nat) :
    (pk.parseRSAPrivateKey data).2 = none ∨ (pk.parseRSAPrivateKey data).1 = pk := by
  unfold PrivateKey.parseRSAPrivateKey
  try dsimp only
  repeat' split
  all_goals first | (left; rfl) | (right; rfl)

theorem parseDSAPrivateKey_cases (pk : PrivateKey) (data : List Nat) :
    (pk.parseDSAPrivateKey data).2 = none ∨ (pk.parseDSAPrivateKey data).1 = pk := by
  unfold PrivateKey.parseDSAPrivateKey
  try dsimp only
  repeat' split
  all_goals first | (left; rfl) | (right; rfl)

theorem parseElGamalPrivateKey_cases (pk : PrivateKey) (data : List Nat) :
    (pk.parseElGamalPrivateKey data).2 = none ∨
      (pk.parseElGamalPrivateKey data).1 = pk := by
  unfold PrivateKey.parseElGamalPrivateKey
  try dsimp only
  repeat' split
  all_goals first | (left; rfl) | (right; rfl)

theorem parseECDSAPrivateKey_cases (pk : PrivateKey) (data : List Nat) :
    (pk.parseECDSAPrivateKey data).2 = none ∨
      (pk.parseECDSAPrivateKey data).1 = pk := by
  unfold PrivateKey.parseECDSAPrivateKey
  try dsimp only
  repeat' split
  all_goals first | (left; rfl) | (right; rfl)

theorem parsePrivateKey_cases (pk : PrivateKey) (data : List Nat) :
    (pk.parsePrivateKey data).2 = none ∨ (pk.parsePrivateKey data).1 = pk := by
  unfold PrivateKey.parsePrivateKey
  split
  any_goals exact parseRSAPrivateKey_cases pk data
  any_goals exact parseDSAPrivateKey_cases pk data
  any_goals exact parseElGamalPrivateKey_cases pk data
  any_goals exact parseECDSAPrivateKey_cases pk data
  right; rfl

theorem Decrypt_state_cases (pk : PrivateKey) (pass : List Nat) :
    (pk.Decrypt pass).1 = pk ∨ (pk.Decrypt pass).2 = none := by
  unfold PrivateKey.Decrypt
  try dsimp only
  repeat' split
  any_goals exact (parsePrivateKey_cases pk _).symm
  all_goals (left; rfl)

/-- C2: for every encrypted PrivateKey packet and every passphrase, if
Decrypt returns an error (checksum mismatch, truncated data, or
key-material parse or validation failure), then every observable field of
the packet (the whole receiver state: Encrypted flag, encrypted blob,
private-key material, ...) is unchanged from its pre-call state. -/
theorem claim_c2_decrypt_error_state_unchanged (pk : PrivateKey)
    (pass : List Nat) (h : (pk.Decrypt pass).2 ≠ none) :
    (pk.Decrypt pass).1 = pk := by
  rcases Decrypt_state_cases pk pass with h1 | h0
  · exact h1
  · exact absurd h0 h

/-! ## Concrete fixtures for witnesses -/

/-- A registry-style cipher handle whose CFB decryption is the identity on
the ciphertext (any concrete cipher function works for the state-machine
claims; a real cipher realizes any plaintext by a suitable blob). -/
def testCipher : Cipher := ⟨9, 32, 16, fun _ _ ct => ct⟩

def testRSAPub : RSAPublicKey := ⟨33, 3⟩

def testPub0 : PublicKey := ⟨.rsa, .rsa testRSAPub, false⟩

/-- An encrypted packet in additive16 mode whose decrypted data is
`[7, 0, 0]`: the sum over `[7]` is 7 but the trailer reads `[0, 0]`. -/
def pkChecksumFail : PrivateKey :=
  { publicKey := testPub0, Encrypted := true, encryptedData := [7, 0, 0],
    cipher := some testCipher, s2k := some (fun _ => [0]), privateKey := none,
    sha1Checksum := false, iv := [] }

theorem claim_c2_witness :
    (pkChecksumFail.Decrypt [1, 2]).2 ≠ none ∧
    (pkChecksumFail.Decrypt [1, 2]).1 = pkChecksumFail :=
  ⟨by decide,
   claim_c2_decrypt_error_state_unchanged pkChecksumFail [1, 2] (by decide)⟩

/-- C7: for every PrivateKey packet whose Encrypted flag is false, Decrypt
with any passphrase returns success without modifying the packet, and
arbitrarily repeated calls leave the packet fixed (idempotence). -/
theorem claim_c7_decrypt_noop_idempotent (pk : PrivateKey)
    (hE : pk.Encrypted = false) :
    (∀ pass, pk.Decrypt pass = (pk, none)) ∧
    ∀ passes : List (List Nat),
      passes.foldl (fun s p => (s.Decrypt p).1) pk = pk := by
  have h1 : ∀ pass, pk.Decrypt pass = (pk, none) := by
    intro pass
    unfold PrivateKey.Decrypt
    simp [hE]
  refine ⟨h1, ?_⟩
  intro passes
  induction passes with
  | nil => rfl
  | cons p t ih => simp only [List.foldl_cons, h1 p, ih]

def pkPlain : PrivateKey := PrivateKey.init testPub0

theorem claim_c7_witness :
    pkPlain.Decrypt [1] = (pkPlain, none) ∧
    [[1], [2], [3]].foldl (fun s p => (s.Decrypt p).1) pkPlain = pkPlain :=
  ⟨(claim_c7_decrypt_noop_idempotent pkPlain rfl).1 [1],
   (claim_c7_decrypt_noop_idempotent pkPlain rfl).2 [[1], [2], [3]]⟩

/-! ## Arithmetic helpers for the checksum characterizations -/

theorem foldl_add_mod65536 (l : List Nat) :
    ∀ a : Nat, l.foldl (fun s b => (s + b) % 65536) (a % 65536) =
      (a + l.sum) % 65536 := by
  induction l with
  | nil => intro a; simp
  | cons b t ih =>
      intro a
      have h1 : (a % 65536 + b) % 65536 = (a + b) % 65536 := by omega
      simp only [List.foldl_cons, List.sum_cons]
      calc List.foldl (fun s b => (s + b) % 65536) ((a % 65536 + b) % 65536) t
          = List.foldl (fun s b => (s + b) % 65536) ((a + b) % 65536) t := by
            rw [h1]
        _ = (a + b + t.sum) % 65536 := ih (a + b)
        _ = (a + (b + t.sum)) % 65536 := by ring_nf

theorem foldl_add_mod65536_zero (l : List Nat) :
    l.foldl (fun s b => (s + b) % 65536) 0 = l.sum % 65536 := by
  have := foldl_add_mod65536 l 0
  simpa using this

theorem getD_append_pair (l : List Nat) (t0 t1 : Nat) :
    (l ++ [t0, t1]).getD l.length 0 = t0 ∧
    (l ++ [t0, t1]).getD (l.length + 1) 0 = t1 := by
  constructor
  · rw [List.getD_eq_getElem?_getD, List.getElem?_append_right le_rfl]
    simp
  · rw [List.getD_eq_getElem?_getD, List.getElem?_append_right (by omega)]
    simp

/-- Reduction of `Decrypt` on an encrypted packet in sha1 mode. -/
theorem Decrypt_red_sha1 (pk : PrivateKey) (pass : List Nat) (c : Cipher)
    (f : List Nat → List Nat) (hE : pk.Encrypted = true)
    (hc : pk.cipher = some c) (hs : pk.s2k = some f)
    (hsha : pk.sha1Checksum = true) :
    pk.Decrypt pass =
      (if (c.cfbDecrypt (f pass) pk.iv pk.encryptedData).length < 20 then
        (pk, some (.structural "truncated private key data"))
      else if sha1 ((c.cfbDecrypt (f pass) pk.iv pk.encryptedData).take ((c.cfbDecrypt (f pass) pk.iv pk.encryptedData).length - 20)) ≠
          (c.cfbDecrypt (f pass) pk.iv pk.encryptedData).drop ((c.cfbDecrypt (f pass) pk.iv pk.encryptedData).length - 20) then
        (pk, some (.structural "private key checksum failure"))
      else
        pk.parsePrivateKey ((c.cfbDecrypt (f pass) pk.iv pk.encryptedData).take ((c.cfbDecrypt (f pass) pk.iv pk.encryptedData).length - 20))) := by
  unfold PrivateKey.Decrypt
  rw [hE, hc, hs, hsha]
  rfl

/-- Reduction of `Decrypt` on an encrypted packet in additive16 mode. -/
theorem Decrypt_red_add (pk : PrivateKey) (pass : List Nat) (c : Cipher)
    (f : List Nat → List Nat) (hE : pk.Encrypted = true)
    (hc : pk.cipher = some c) (hs : pk.s2k = some f)
    (hsha : pk.sha1Checksum = false) :
    pk.Decrypt pass =
      (if (c.cfbDecrypt (f pass) pk.iv pk.encryptedData).length < 2 then
        (pk, some (.structural "truncated private key data"))
      else
        if (c.cfbDecrypt (f pass) pk.iv pk.encryptedData).getD ((c.cfbDecrypt (f pass) pk.iv pk.encryptedData).length - 2) 0 ≠
            ((c.cfbDecrypt (f pass) pk.iv pk.encryptedData).take ((c.cfbDecrypt (f pass) pk.iv pk.encryptedData).length - 2)).foldl
              (fun s b => (s + b) % 65536) 0 / 256 ∨
          (c.cfbDecrypt (f pass) pk.iv pk.encryptedData).getD ((c.cfbDecrypt (f pass) pk.iv pk.encryptedData).length - 1) 0 ≠
            ((c.cfbDecrypt (f pass) pk.iv pk.encryptedData).take ((c.cfbDecrypt (f pass) pk.iv pk.encryptedData).length - 2)).foldl
              (fun s b => (s + b) % 65536) 0 % 256 then
          (pk, some (.structural "private key checksum failure"))
        else
          pk.parsePrivateKey ((c.cfbDecrypt (f pass) pk.iv pk.encryptedData).take ((c.cfbDecrypt (f pass) pk.iv pk.encryptedData).length - 2))) := by
  unfold PrivateKey.Decrypt
  rw [hE, hc, hs, hsha]
  rfl

/-- C3: Decrypt verifies integrity per checksum mode.  In sha1 mode it
requires at least 20 decrypted bytes else a truncation StructuralError,
computes SHA-1 over all but the final 20 bytes, returns the
checksum-failure StructuralError when that digest differs from the
trailing 20 bytes, and on a match strips the trailer and parses the rest.
In additive16 mode it requires at least 2 decrypted bytes, compares the
sum modulo 2^16 of all bytes except the final two against the big-endian
trailing two bytes, and behaves analogously. -/
theorem claim_c3_decrypt_checksum_modes (pk : PrivateKey) (pass : List Nat)
    (c : Cipher) (f : List Nat → List Nat)
    (hE : pk.Encrypted = true) (hc : pk.cipher = some c)
    (hs : pk.s2k = some f) :
    (pk.sha1Checksum = true →
      ((c.cfbDecrypt (f pass) pk.iv pk.encryptedData).length < 20 →
        pk.Decrypt pass = (pk, some (.structural "truncated private key data"))) ∧
      (∀ body trailer,
        c.cfbDecrypt (f pass) pk.iv pk.encryptedData = body ++ trailer →
        trailer.length = 20 →
        (sha1 body ≠ trailer →
          pk.Decrypt pass =
            (pk, some (.structural "private key checksum failure"))) ∧
        (sha1 body = trailer →
          pk.Decrypt pass = pk.parsePrivateKey body))) ∧
    (pk.sha1Checksum = false →
      ((c.cfbDecrypt (f pass) pk.iv pk.encryptedData).length < 2 →
        pk.Decrypt pass = (pk, some (.structural "truncated private key data"))) ∧
      (∀ body trailer,
        c.cfbDecrypt (f pass) pk.iv pk.encryptedData = body ++ trailer →
        trailer.length = 2 →
        (trailer ≠ [body.sum % 65536 / 256, body.sum % 65536 % 256] →
          pk.Decrypt pass =
            (pk, some (.structural "private key checksum failure"))) ∧
        (trailer = [body.sum % 65536 / 256, body.sum % 65536 % 256] →
          pk.Decrypt pass = pk.parsePrivateKey body))) := by
  constructor
  · intro hsha
    have hred := Decrypt_red_sha1 pk pass c f hE hc hs hsha
    constructor
    · intro hlt
      rw [hred, if_pos hlt]
    · intro body trailer hdata htl
      have hlen : (c.cfbDecrypt (f pass) pk.iv pk.encryptedData).length = body.length + 20 := by
        rw [hdata]; simp [htl]
      have hnlt : ¬ (c.cfbDecrypt (f pass) pk.iv pk.encryptedData).length < 20 := by omega
      have hsub : (c.cfbDecrypt (f pass) pk.iv pk.encryptedData).length - 20 = body.length := by omega
      have htake : (c.cfbDecrypt (f pass) pk.iv pk.encryptedData).take ((c.cfbDecrypt (f pass) pk.iv pk.encryptedData).length - 20) = body := by
        rw [hsub, hdata, List.take_left' rfl]
      have hdrop : (c.cfbDecrypt (f pass) pk.iv pk.encryptedData).drop ((c.cfbDecrypt (f pass) pk.iv pk.encryptedData).length - 20) = trailer := by
        rw [hsub, hdata, List.drop_left' rfl]
      rw [hred, if_neg hnlt, htake, hdrop]
      constructor
      · intro hne
        rw [if_pos hne]
      · intro heq
        rw [if_neg (by simp [heq])]
  · intro hsha
    have hred := Decrypt_red_add pk pass c f hE hc hs hsha
    constructor
    · intro hlt
      rw [hred, if_pos hlt]
    · intro body trailer hdata htl
      obtain ⟨t0, t1, rfl⟩ : ∃ a b, trailer = [a, b] := by
        match trailer, htl with
        | [a, b], _ => exact ⟨a, b, rfl⟩
      have hlen : (c.cfbDecrypt (f pass) pk.iv pk.encryptedData).length = body.length + 2 := by
        rw [hdata]; simp
      have hnlt : ¬ (c.cfbDecrypt (f pass) pk.iv pk.encryptedData).length < 2 := by omega
      have hsub2 : (c.cfbDecrypt (f pass) pk.iv pk.encryptedData).length - 2 = body.length := by omega
      have hsub1 : (c.cfbDecrypt (f pass) pk.iv pk.encryptedData).length - 1 = body.length + 1 := by omega
      have htake : (c.cfbDecrypt (f pass) pk.iv pk.encryptedData).take ((c.cfbDecrypt (f pass) pk.iv pk.encryptedData).length - 2) = body := by
        rw [hsub2, hdata, List.take_left' rfl]
      have hget0 : (c.cfbDecrypt (f pass) pk.iv pk.encryptedData).getD ((c.cfbDecrypt (f pass) pk.iv pk.encryptedData).length - 2) 0 = t0 := by
        rw [hsub2, hdata]
        exact (getD_append_pair body t0 t1).1
      have hget1 : (c.cfbDecrypt (f pass) pk.iv pk.encryptedData).getD ((c.cfbDecrypt (f pass) pk.iv pk.encryptedData).length - 1) 0 = t1 := by
        rw [hsub1, hdata]
        exact (getD_append_pair body t0 t1).2
      rw [hred, if_neg hnlt]
      rw [htake, foldl_add_mod65536_zero, hget0, hget1]
      constructor
      · intro hne
        rw [if_pos]
        by_contra hcon
        push_neg at hcon
        exact hne (by simp [hcon.1, hcon.2])
      · intro heq
        have h0 : t0 = body.sum % 65536 / 256 := by
          have := congrArg (fun l => l.getD 0 0) heq
          simpa using this
        have h1 : t1 = body.sum % 65536 % 256 := by
          have := congrArg (fun l => l.getD 1 0) heq
          simpa using this
        rw [if_neg (by simp [h0, h1])]

/-- An encrypted packet in additive16 mode whose decrypted data is
`[5, 0, 5]`: the sum over `[5]` matches the big-endian trailer `[0, 5]`. -/
def pkChecksumOk : PrivateKey := { pkChecksumFail with encryptedData := [5, 0, 5] }

/-- An encrypted packet in sha1 mode whose decrypted data has fewer than 20
bytes. -/
def pkSha1Short : PrivateKey :=
  { pkChecksumFail with sha1Checksum := true, encryptedData := [1, 2, 3] }

theorem claim_c3_witness :
    pkChecksumFail.Decrypt [1, 2] =
      (pkChecksumFail, some (.structural "private key checksum failure")) ∧
    pkChecksumOk.Decrypt [1, 2] = pkChecksumOk.parsePrivateKey [5] ∧
    pkSha1Short.Decrypt [1, 2] =
      (pkSha1Short, some (.structural "truncated private key data")) := by
  refine ⟨?_, ?_, ?_⟩
  · exact ((claim_c3_decrypt_checksum_modes pkChecksumFail [1, 2] testCipher _
      rfl rfl rfl).2 rfl).2 [7] [0, 0] rfl rfl |>.1 (by decide)
  · exact ((claim_c3_decrypt_checksum_modes pkChecksumOk [1, 2] testCipher _
      rfl rfl rfl).2 rfl).2 [5] [0, 5] rfl rfl |>.2 (by decide)
  · exact ((claim_c3_decrypt_checksum_modes pkSha1Short [1, 2] testCipher _
      rfl rfl rfl).1 rfl).1 (by decide)

/-! ## Error-shape lemmas -/

theorem mpiDecode_error_eq (data : List Nat) (e : Error)
    (h : mpiDecode data = .error e) : e = .ioUnexpectedEOF := by
  unfold mpiDecode at h
  split at h
  · dsimp only at h
    split at h
    · cases h
    · exact (Except.error.inj h).symm
  · exact (Except.error.inj h).symm

theorem checkPub_error_shape (pub : RSAPublicKey) (e : Error)
    (h : checkPub pub = some e) : ∃ m, e = .validation m := by
  unfold checkPub at h
  split at h
  · exact ⟨_, (Option.some.inj h).symm⟩
  · split at h
    · exact ⟨_, (Option.some.inj h).symm⟩
    · cases h

theorem Validate_error_shape (priv : RSAPrivateKey) (e : Error)
    (h : priv.Validate = some e) : ∃ m, e = .validation m := by
  unfold RSAPrivateKey.Validate at h
  split at h
  · rename_i e0 hcp
    obtain ⟨m, hm⟩ := checkPub_error_shape _ _ hcp
    exact ⟨m, by rw [← Option.some.inj h, hm]⟩
  · split at h
    · exact ⟨_, (Option.some.inj h).symm⟩
    · split at h
      · exact ⟨_, (Option.some.inj h).symm⟩
      · split at h
        · exact ⟨_, (Option.some.inj h).symm⟩
        · cases h

/-! ## Well-formed algorithm/material pairing and absence of panics

`PublicKey.parse` (the external collaborator) only ever produces a packet
whose material matches its algorithm tag, which is what rules out the
`panic("impossible")` arm and the interface-conversion panics. -/

def PublicKey.algoMaterialOK (pk0 : PublicKey) : Bool :=
  match pk0.pubKeyAlgo, pk0.material with
  | .rsa, .rsa _ => true
  | .rsaSignOnly, .rsa _ => true
  | .rsaEncryptOnly, .rsa _ => true
  | .dsa, .dsa _ => true
  | .elgamal, .elgamal _ => true
  | .ecdsa, .ecdsa _ => true
  | _, _ => false

theorem parseRSAPrivateKey_snd_shape (pk : PrivateKey) (pub : RSAPublicKey)
    (data : List Nat) (hm : pk.publicKey.material = .rsa pub) :
    (pk.parseRSAPrivateKey data).2 = none ∨
    (pk.parseRSAPrivateKey data).2 = some .ioUnexpectedEOF ∨
    ∃ m, (pk.parseRSAPrivateKey data).2 = some (.validation m) := by
  unfold PrivateKey.parseRSAPrivateKey
  rw [hm]
  dsimp only [PubMaterial.asRSA]
  cases hd1 : mpiDecode data with
  | error e =>
      have he := mpiDecode_error_eq _ _ hd1
      subst he
      right; left; rfl
  | ok v1 =>
      obtain ⟨dBytes, r1⟩ := v1
      dsimp only
      cases hd2 : mpiDecode r1 with
      | error e =>
          have he := mpiDecode_error_eq _ _ hd2
          subst he
          right; left; rfl
      | ok v2 =>
          obtain ⟨pBytes, r2⟩ := v2
          dsimp only
          cases hd3 : mpiDecode r2 with
          | error e =>
              have he := mpiDecode_error_eq _ _ hd3
              subst he
              right; left; rfl
          | ok v3 =>
              obtain ⟨qBytes, r3⟩ := v3
              dsimp only
              cases hv : RSAPrivateKey.Validate
                  { pub := pub, d := beBytesToNat dBytes,
                    primes := [beBytesToNat pBytes, beBytesToNat qBytes],
                    qinv := 0 } with
              | none => left; rfl
              | some e =>
                  obtain ⟨m, rfl⟩ := Validate_error_shape _ _ hv
                  right; right; exact ⟨m, rfl⟩

theorem parseDSAPrivateKey_snd_shape (pk : PrivateKey) (pub : DSAPublicKey)
    (data : List Nat) (hm : pk.publicKey.material = .dsa pub) :
    (pk.parseDSAPrivateKey data).2 = none ∨
    (pk.parseDSAPrivateKey data).2 = some .ioUnexpectedEOF := by
  unfold PrivateKey.parseDSAPrivateKey
  rw [hm]
  dsimp only [PubMaterial.asDSA]
  cases hd1 : mpiDecode data with
  | error e =>
      have he := mpiDecode_error_eq _ _ hd1
      subst he
      right; rfl
  | ok v1 =>
      obtain ⟨xBytes, r1⟩ := v1
      left; rfl

theorem parseElGamalPrivateKey_snd_shape (pk : PrivateKey)
    (pub : ElGamalPublicKey) (data : List Nat)
    (hm : pk.publicKey.material = .elgamal pub) :
    (pk.parseElGamalPrivateKey data).2 = none ∨
    (pk.parseElGamalPrivateKey data).2 = some .ioUnexpectedEOF := by
  unfold PrivateKey.parseElGamalPrivateKey
  rw [hm]
  dsimp only [PubMaterial.asElGamal]
  cases hd1 : mpiDecode data with
  | error e =>
      have he := mpiDecode_error_eq _ _ hd1
      subst he
      right; rfl
  | ok v1 =>
      obtain ⟨xBytes, r1⟩ := v1
      left; rfl

theorem parseECDSAPrivateKey_snd_shape (pk : PrivateKey)
    (pub : ECDSAPublicKey) (data : List Nat)
    (hm : pk.publicKey.material = .ecdsa pub) :
    (pk.parseECDSAPrivateKey data).2 = none ∨
    (pk.parseECDSAPrivateKey data).2 = some .ioUnexpectedEOF := by
  unfold PrivateKey.parseECDSAPrivateKey
  rw [hm]
  dsimp only [PubMaterial.asECDSA]
  cases hd1 : mpiDecode data with
  | error e =>
      have he := mpiDecode_error_eq _ _ hd1
      subst he
      right; rfl
  | ok v1 =>
      obtain ⟨dBytes, r1⟩ := v1
      left; rfl

theorem parsePrivateKey_no_panic (pk : PrivateKey) (data : List Nat)
    (hwf : pk.publicKey.algoMaterialOK = true) (m : String) :
    (pk.parsePrivateKey data).2 ≠ some (.panicked m) := by
  unfold PrivateKey.parsePrivateKey
  cases halgo : pk.publicKey.pubKeyAlgo <;>
    cases hmat : pk.publicKey.material <;>
    simp only [PublicKey.algoMaterialOK, halgo, hmat] at hwf ⊢ <;>
    try exact Bool.noConfusion hwf
  all_goals intro hcon
  case rsa.rsa pub =>
    rcases parseRSAPrivateKey_snd_shape pk pub data hmat with h | h | ⟨m2, h⟩ <;>
      simp [h] at hcon
  case rsaEncryptOnly.rsa pub =>
    rcases parseRSAPrivateKey_snd_shape pk pub data hmat with h | h | ⟨m2, h⟩ <;>
      simp [h] at hcon
  case rsaSignOnly.rsa pub =>
    rcases parseRSAPrivateKey_snd_shape pk pub data hmat with h | h | ⟨m2, h⟩ <;>
      simp [h] at hcon
  case dsa.dsa pub =>
    rcases parseDSAPrivateKey_snd_shape pk pub data hmat with h | h <;>
      simp [h] at hcon
  case elgamal.elgamal pub =>
    rcases parseElGamalPrivateKey_snd_shape pk pub data hmat with h | h <;>
      simp [h] at hcon
  case ecdsa.ecdsa pub =>
    rcases parseECDSAPrivateKey_snd_shape pk pub data hmat with h | h <;>
      simp [h] at hcon

/-! ## C4: outcome classification of Decrypt failures -/

/-- An encrypted additive16-mode packet whose decryption yields `[0, 0]`:
the 16-bit checksum over the empty body passes, and the key-material parse
of the empty plaintext then fails with a propagated I/O error — an error
of a different kind than the checksum-failure StructuralError.  (A real
cipher realizes this packet concretely: encrypt two zero bytes under the
key the S2K derives from the tried passphrase.) -/
def pkOracle : PrivateKey := { pkChecksumFail with encryptedData := [0, 0] }

/-- C4 counterexample: decrypting this encrypted packet surfaces an
I/O-kind error, not the checksum-failure StructuralError — so a failed
decryption is not always of the checksum-failure kind. -/
theorem claim_c4_counterexample :
    (pkOracle.Decrypt [1, 2]).2 = some .ioUnexpectedEOF ∧
    ∀ m, (Error.ioUnexpectedEOF : Error) ≠ .structural m := by
  refine ⟨by decide, ?_⟩
  intro m h
  exact Error.noConfusion h

/-- C4 as amended: on an encrypted packet (well-formed algorithm/material
pairing), Decrypt either fails the integrity check — yielding exactly the
same checksum-failure StructuralError value whether the cause is a wrong
passphrase or a corrupted blob — or fails with the truncated-data
StructuralError when the decrypted data is shorter than the trailer, or
(when the trailer happens to verify) returns whatever the key-material
parse of the stripped plaintext returns, which can be an error of another
kind or success; it never crashes (no panic outcome). -/
theorem claim_c4_decrypt_failure_classification (pk : PrivateKey)
    (pass : List Nat) (c : Cipher) (f : List Nat → List Nat)
    (hE : pk.Encrypted = true) (hc : pk.cipher = some c)
    (hs : pk.s2k = some f) (hwf : pk.publicKey.algoMaterialOK = true) :
    (pk.Decrypt pass = (pk, some (.structural "private key checksum failure")) ∨
     pk.Decrypt pass = (pk, some (.structural "truncated private key data")) ∨
     ∃ body, pk.Decrypt pass = pk.parsePrivateKey body) ∧
    ∀ m, (pk.Decrypt pass).2 ≠ some (.panicked m) := by
  have tri :
      pk.Decrypt pass = (pk, some (.structural "private key checksum failure")) ∨
      pk.Decrypt pass = (pk, some (.structural "truncated private key data")) ∨
      ∃ body, pk.Decrypt pass = pk.parsePrivateKey body := by
    by_cases hsha : pk.sha1Checksum = true
    · rw [Decrypt_red_sha1 pk pass c f hE hc hs hsha]
      by_cases hlt : (c.cfbDecrypt (f pass) pk.iv pk.encryptedData).length < 20
      · rw [if_pos hlt]; right; left; rfl
      · rw [if_neg hlt]
        by_cases hne : sha1 ((c.cfbDecrypt (f pass) pk.iv pk.encryptedData).take
            ((c.cfbDecrypt (f pass) pk.iv pk.encryptedData).length - 20)) ≠
            (c.cfbDecrypt (f pass) pk.iv pk.encryptedData).drop
            ((c.cfbDecrypt (f pass) pk.iv pk.encryptedData).length - 20)
        · rw [if_pos hne]; left; rfl
        · rw [if_neg hne]; right; right; exact ⟨_, rfl⟩
    · have hsha' : pk.sha1Checksum = false := by
        simpa using hsha
      rw [Decrypt_red_add pk pass c f hE hc hs hsha']
      by_cases hlt : (c.cfbDecrypt (f pass) pk.iv pk.encryptedData).length < 2
      · rw [if_pos hlt]; right; left; rfl
      · rw [if_neg hlt]
        by_cases hne : (c.cfbDecrypt (f pass) pk.iv pk.encryptedData).getD
            ((c.cfbDecrypt (f pass) pk.iv pk.encryptedData).length - 2) 0 ≠
              ((c.cfbDecrypt (f pass) pk.iv pk.encryptedData).take
                ((c.cfbDecrypt (f pass) pk.iv pk.encryptedData).length - 2)).foldl
                (fun s b => (s + b) % 65536) 0 / 256 ∨
            (c.cfbDecrypt (f pass) pk.iv pk.encryptedData).getD
            ((c.cfbDecrypt (f pass) pk.iv pk.encryptedData).length - 1) 0 ≠
              ((c.cfbDecrypt (f pass) pk.iv pk.encryptedData).take
                ((c.cfbDecrypt (f pass) pk.iv pk.encryptedData).length - 2)).foldl
                (fun s b => (s + b) % 65536) 0 % 256
        · rw [if_pos hne]; left; rfl
        · rw [if_neg hne]; right; right; exact ⟨_, rfl⟩
  refine ⟨tri, ?_⟩
  intro m
  rcases tri with h | h | ⟨body, h⟩
  · rw [h]; simp
  · rw [h]; simp
  · rw [h]; exact parsePrivateKey_no_panic pk body hwf m

theorem claim_c4_witness :
    ((pkChecksumFail.Decrypt [9] =
        (pkChecksumFail, some (.structural "private key checksum failure")) ∨
      pkChecksumFail.Decrypt [9] =
        (pkChecksumFail, some (.structural "truncated private key data")) ∨
      ∃ body, pkChecksumFail.Decrypt [9] = pkChecksumFail.parsePrivateKey body) ∧
     ∀ m, (pkChecksumFail.Decrypt [9]).2 ≠ some (.panicked m)) :=
  claim_c4_decrypt_failure_classification pkChecksumFail [9] testCipher _
    rfl rfl rfl rfl

/-! ## Wire-level evaluation lemmas for the key-material parsers -/

/-- Usage byte 0: unencrypted, the remaining bytes are parsed immediately
as plaintext key material. -/
theorem parse_usage0 (cb : Nat → Option Cipher)
    (sp : List Nat → Except Error ((List Nat → List Nat) × List Nat))
    (pk0 : PublicKey) (rest : List Nat) :
    PrivateKey.parse cb sp pk0 (0 :: rest) =
      ({ PrivateKey.init pk0 with encryptedData := rest }).parsePrivateKey
        rest := by
  unfold PrivateKey.parse
  rfl

/-- Evaluation of the RSA key-material parse on a well-formed wire prefix:
the three decoded integers land in `D`, `Primes[0]`, `Primes[1]` in wire
order, anything after the third MPI is ignored, and the outcome is decided
by `Validate`. -/
theorem parseRSAPrivateKey_wire (pk : PrivateKey) (pub : RSAPublicKey)
    (d p q : Nat) (junk : List Nat)
    (hm : pk.publicKey.material = .rsa pub)
    (hd : natBitLen d < 65536) (hp : natBitLen p < 65536)
    (hq : natBitLen q < 65536) :
    pk.parseRSAPrivateKey
        (mpiEncode d ++ (mpiEncode p ++ (mpiEncode q ++ junk))) =
      (match RSAPrivateKey.Validate ⟨pub, d, [p, q], 0⟩ with
       | some e => (pk, some e)
       | none =>
           ({ pk with
               privateKey :=
                 some (.rsa (RSAPrivateKey.Precompute ⟨pub, d, [p, q], 0⟩))
               Encrypted := false
               encryptedData := [] }, none)) := by
  unfold PrivateKey.parseRSAPrivateKey
  rw [hm]
  dsimp only [PubMaterial.asRSA]
  rw [mpiDecode_mpiEncode d _ hd]
  dsimp only
  rw [mpiDecode_mpiEncode p _ hp]
  dsimp only
  rw [mpiDecode_mpiEncode q _ hq]
  dsimp only
  rw [beBytesToNat_natToBEBytes, beBytesToNat_natToBEBytes,
    beBytesToNat_natToBEBytes]

theorem parseDSAPrivateKey_wire (pk : PrivateKey) (pub : DSAPublicKey)
    (x : Nat) (junk : List Nat) (hm : pk.publicKey.material = .dsa pub)
    (hx : natBitLen x < 65536) :
    pk.parseDSAPrivateKey (mpiEncode x ++ junk) =
      ({ pk with
          privateKey := some (.dsa pub x)
          Encrypted := false
          encryptedData := [] }, none) := by
  unfold PrivateKey.parseDSAPrivateKey
  rw [hm]
  dsimp only [PubMaterial.asDSA]
  rw [mpiDecode_mpiEncode x _ hx]
  dsimp only
  rw [beBytesToNat_natToBEBytes]

theorem parseElGamalPrivateKey_wire (pk : PrivateKey) (pub : ElGamalPublicKey)
    (x : Nat) (junk : List Nat) (hm : pk.publicKey.material = .elgamal pub)
    (hx : natBitLen x < 65536) :
    pk.parseElGamalPrivateKey (mpiEncode x ++ junk) =
      ({ pk with
          privateKey := some (.elgamal pub x)
          Encrypted := false
          encryptedData := [] }, none) := by
  unfold PrivateKey.parseElGamalPrivateKey
  rw [hm]
  dsimp only [PubMaterial.asElGamal]
  rw [mpiDecode_mpiEncode x _ hx]
  dsimp only
  rw [beBytesToNat_natToBEBytes]

theorem parseECDSAPrivateKey_wire (pk : PrivateKey) (pub : ECDSAPublicKey)
    (x : Nat) (junk : List Nat) (hm : pk.publicKey.material = .ecdsa pub)
    (hx : natBitLen x < 65536) :
    pk.parseECDSAPrivateKey (mpiEncode x ++ junk) =
      ({ pk with
          privateKey := some (.ecdsa pub x)
          Encrypted := false
          encryptedData := [] }, none) := by
  unfold PrivateKey.parseECDSAPrivateKey
  rw [hm]
  dsimp only [PubMaterial.asECDSA]
  rw [mpiDecode_mpiEncode x _ hx]
  dsimp only
  rw [beBytesToNat_natToBEBytes]

/-! ## Evaluation of `Validate` -/

theorem Validate_ok (pub : RSAPublicKey) (d p q : Nat)
    (he2 : 2 ≤ pub.e) (heMax : pub.e ≤ 2 ^ 31 - 1)
    (hp1 : 1 < p) (hq1 : 1 < q) (hn : p * q = pub.n)
    (hcp : d * pub.e % (p - 1) = 1) (hcq : d * pub.e % (q - 1) = 1) :
    RSAPrivateKey.Validate ⟨pub, d, [p, q], 0⟩ = none := by
  unfold RSAPrivateKey.Validate checkPub
  rw [if_neg (by omega : ¬ pub.e < 2), if_neg (by omega : ¬ 2 ^ 31 - 1 < pub.e)]
  dsimp only
  rw [if_neg ?hprime, if_neg ?hmod, if_neg ?hexp]
  case hprime =>
    simp only [List.any_cons, List.any_nil, Bool.or_false, Bool.or_eq_true,
      decide_eq_true_eq]
    omega
  case hmod =>
    simp only [List.foldl_cons, List.foldl_nil, one_mul, ne_eq]
    intro hcon
    exact hcon hn
  case hexp =>
    simp only [List.any_cons, List.any_nil, Bool.or_false, Bool.or_eq_true,
      decide_eq_true_eq]
    push_neg
    exact ⟨hcp, hcq⟩

theorem Validate_prime_one (pub : RSAPublicKey) (d a b : Nat)
    (h : a = 1 ∨ b = 1) :
    ∃ m, RSAPrivateKey.Validate ⟨pub, d, [a, b], 0⟩ = some (.validation m) := by
  unfold RSAPrivateKey.Validate
  cases hcp : checkPub pub with
  | some e =>
      obtain ⟨m, rfl⟩ := checkPub_error_shape _ _ hcp
      exact ⟨m, rfl⟩
  | none =>
      rw [if_pos ?hany]
      case hany =>
        simp only [List.any_cons, List.any_nil, Bool.or_false, Bool.or_eq_true,
          decide_eq_true_eq]
        omega
      exact ⟨"crypto/rsa: invalid prime value", rfl⟩

/-- Right-associated view of the serialized RSA secret payload. -/
theorem serializeRSA_assoc (pub : RSAPublicKey) (d p q qinv : Nat)
    (tail : List Nat) :
    serializeRSAPrivateKey ⟨pub, d, [p, q], qinv⟩ ++ tail =
      mpiEncode d ++ (mpiEncode q ++ (mpiEncode p ++ (mpiEncode qinv ++ tail))) := by
  show ((mpiEncode d ++ mpiEncode q ++ mpiEncode p ++ mpiEncode qinv) ++ tail) = _
  simp [List.append_assoc]

/-! ## C1: serialize-then-parse round trip -/

/-- C1 counterexample: a concrete unencrypted RSA key (`n = 33`, `e = 3`,
`d = 7`, `Primes = [3, 11]`, `Qinv = 2`) whose serialized packet body
parses back successfully but with the two prime slots exchanged and a
different CRT coefficient — so the round trip does not reproduce identical
secret components. -/
theorem claim_c1_counterexample :
    (⟨⟨.rsa, .rsa ⟨33, 3⟩, false⟩, false, [], none, none,
        some (.rsa ⟨⟨33, 3⟩, 7, [3, 11], 2⟩), false, []⟩ :
      PrivateKey).SerializeBody [] =
      .ok [0, 0, 3, 7, 0, 4, 11, 0, 2, 3, 0, 2, 2, 0, 34] ∧
    (PrivateKey.parse (fun _ => none) (fun _ => .error .ioUnexpectedEOF)
        ⟨.rsa, .rsa ⟨33, 3⟩, false⟩
        [0, 0, 3, 7, 0, 4, 11, 0, 2, 3, 0, 2, 2, 0, 34]).2 = none ∧
    (PrivateKey.parse (fun _ => none) (fun _ => .error .ioUnexpectedEOF)
        ⟨.rsa, .rsa ⟨33, 3⟩, false⟩
        [0, 0, 3, 7, 0, 4, 11, 0, 2, 3, 0, 2, 2, 0, 34]).1.privateKey =
      some (.rsa ⟨⟨33, 3⟩, 7, [11, 3], 4⟩) ∧
    some (PrivMaterial.rsa ⟨⟨33, 3⟩, 7, [11, 3], 4⟩) ≠
      some (PrivMaterial.rsa ⟨⟨33, 3⟩, 7, [3, 11], 2⟩) := by
  refine ⟨by exact rfl, by decide, by decide, by decide⟩

/-- C1 as amended: serializing an unencrypted private key and parsing the
resulting packet body back succeeds for every supported key algorithm and
reproduces the secret scalar exactly for DSA, ElGamal and ECDSA; for RSA it
reproduces the secret exponent and the pair of primes but exchanges the two
prime slots, and recomputes the CRT coefficient for the swapped order
(inverse of the first stored prime modulo the second) instead of reading
back the serialized one. -/
theorem claim_c1_serialize_parse_roundtrip :
    (∀ (cb : Nat → Option Cipher)
       (sp : List Nat → Except Error ((List Nat → List Nat) × List Nat))
       (pub : RSAPublicKey) (d p q qinv : Nat) (pubBytes : List Nat)
       (isSub : Bool),
       2 ≤ pub.e → pub.e ≤ 2 ^ 31 - 1 → 1 < p → 1 < q → p * q = pub.n →
       d * pub.e % (p - 1) = 1 → d * pub.e % (q - 1) = 1 →
       natBitLen d < 65536 → natBitLen p < 65536 → natBitLen q < 65536 →
       ∃ body,
         ({ PrivateKey.init ⟨.rsa, .rsa pub, isSub⟩ with
             privateKey := some (.rsa ⟨pub, d, [p, q], qinv⟩) }).SerializeBody
           pubBytes = .ok (pubBytes ++ body) ∧
         PrivateKey.parse cb sp ⟨.rsa, .rsa pub, isSub⟩ body =
           ({ PrivateKey.init ⟨.rsa, .rsa pub, isSub⟩ with
               privateKey := some (.rsa ⟨pub, d, [q, p], modInverse p q⟩) },
            none)) ∧
    (∀ cb sp (pub : DSAPublicKey) (x : Nat) (pubBytes : List Nat)
       (isSub : Bool), natBitLen x < 65536 →
       ∃ body,
         ({ PrivateKey.init ⟨.dsa, .dsa pub, isSub⟩ with
             privateKey := some (.dsa pub x) }).SerializeBody pubBytes =
           .ok (pubBytes ++ body) ∧
         PrivateKey.parse cb sp ⟨.dsa, .dsa pub, isSub⟩ body =
           ({ PrivateKey.init ⟨.dsa, .dsa pub, isSub⟩ with
               privateKey := some (.dsa pub x) }, none)) ∧
    (∀ cb sp (pub : ElGamalPublicKey) (x : Nat) (pubBytes : List Nat)
       (isSub : Bool), natBitLen x < 65536 →
       ∃ body,
         ({ PrivateKey.init ⟨.elgamal, .elgamal pub, isSub⟩ with
             privateKey := some (.elgamal pub x) }).SerializeBody pubBytes =
           .ok (pubBytes ++ body) ∧
         PrivateKey.parse cb sp ⟨.elgamal, .elgamal pub, isSub⟩ body =
           ({ PrivateKey.init ⟨.elgamal, .elgamal pub, isSub⟩ with
               privateKey := some (.elgamal pub x) }, none)) ∧
    (∀ cb sp (pub : ECDSAPublicKey) (x : Nat) (pubBytes : List Nat)
       (isSub : Bool), natBitLen x < 65536 →
       ∃ body,
         ({ PrivateKey.init ⟨.ecdsa, .ecdsa pub, isSub⟩ with
             privateKey := some (.ecdsa pub x) }).SerializeBody pubBytes =
           .ok (pubBytes ++ body) ∧
         PrivateKey.parse cb sp ⟨.ecdsa, .ecdsa pub, isSub⟩ body =
           ({ PrivateKey.init ⟨.ecdsa, .ecdsa pub, isSub⟩ with
               privateKey := some (.ecdsa pub x) }, none)) := by
  refine ⟨?_, ?_, ?_, ?_⟩
  · intro cb sp pub d p q qinv pubBytes isSub he2 heMax hp1 hq1 hn hcp hcq
      hd hp hq
    refine ⟨0 :: serializeRSAPrivateKey ⟨pub, d, [p, q], qinv⟩ ++
      [mod64kHash (serializeRSAPrivateKey ⟨pub, d, [p, q], qinv⟩) / 256,
       mod64kHash (serializeRSAPrivateKey ⟨pub, d, [p, q], qinv⟩) % 256],
      ?_, ?_⟩
    · simp [PrivateKey.SerializeBody, List.append_assoc]
    rw [List.cons_append, parse_usage0]
    have hser := serializeRSA_assoc pub d p q qinv
      [mod64kHash (serializeRSAPrivateKey ⟨pub, d, [p, q], qinv⟩) / 256,
       mod64kHash (serializeRSAPrivateKey ⟨pub, d, [p, q], qinv⟩) % 256]
    show ({ PrivateKey.init ⟨.rsa, .rsa pub, isSub⟩ with
        encryptedData := serializeRSAPrivateKey ⟨pub, d, [p, q], qinv⟩ ++
          [mod64kHash (serializeRSAPrivateKey ⟨pub, d, [p, q], qinv⟩) / 256,
           mod64kHash (serializeRSAPrivateKey ⟨pub, d, [p, q], qinv⟩) % 256]
        }).parseRSAPrivateKey
        (serializeRSAPrivateKey ⟨pub, d, [p, q], qinv⟩ ++
          [mod64kHash (serializeRSAPrivateKey ⟨pub, d, [p, q], qinv⟩) / 256,
           mod64kHash (serializeRSAPrivateKey ⟨pub, d, [p, q], qinv⟩) % 256]) = _
    rw [hser, parseRSAPrivateKey_wire _ pub d q p _ rfl hd hq hp,
      Validate_ok pub d q p he2 heMax hq1 hp1 (by rw [mul_comm]; exact hn)
        hcq hcp]
    rfl
  · intro cb sp pub x pubBytes isSub hx
    refine ⟨0 :: serializeDSAPrivateKey x ++
      [mod64kHash (serializeDSAPrivateKey x) / 256,
       mod64kHash (serializeDSAPrivateKey x) % 256], ?_, ?_⟩
    · simp [PrivateKey.SerializeBody, List.append_assoc]
    rw [List.cons_append, parse_usage0]
    show ({ PrivateKey.init ⟨.dsa, .dsa pub, isSub⟩ with
        encryptedData := serializeDSAPrivateKey x ++
          [mod64kHash (serializeDSAPrivateKey x) / 256,
           mod64kHash (serializeDSAPrivateKey x) % 256] }).parseDSAPrivateKey
        (serializeDSAPrivateKey x ++
          [mod64kHash (serializeDSAPrivateKey x) / 256,
           mod64kHash (serializeDSAPrivateKey x) % 256]) = _
    rw [show serializeDSAPrivateKey x = mpiEncode x from rfl,
      parseDSAPrivateKey_wire _ pub x _ rfl hx]
    rfl
  · intro cb sp pub x pubBytes isSub hx
    refine ⟨0 :: serializeElGamalPrivateKey x ++
      [mod64kHash (serializeElGamalPrivateKey x) / 256,
       mod64kHash (serializeElGamalPrivateKey x) % 256], ?_, ?_⟩
    · simp [PrivateKey.SerializeBody, List.append_assoc]
    rw [List.cons_append, parse_usage0]
    show ({ PrivateKey.init ⟨.elgamal, .elgamal pub, isSub⟩ with
        encryptedData := serializeElGamalPrivateKey x ++
          [mod64kHash (serializeElGamalPrivateKey x) / 256,
           mod64kHash (serializeElGamalPrivateKey x) % 256]
        }).parseElGamalPrivateKey
        (serializeElGamalPrivateKey x ++
          [mod64kHash (serializeElGamalPrivateKey x) / 256,
           mod64kHash (serializeElGamalPrivateKey x) % 256]) = _
    rw [show serializeElGamalPrivateKey x = mpiEncode x from rfl,
      parseElGamalPrivateKey_wire _ pub x _ rfl hx]
    rfl
  · intro cb sp pub x pubBytes isSub hx
    refine ⟨0 :: serializeECDSAPrivateKey x ++
      [mod64kHash (serializeECDSAPrivateKey x) / 256,
       mod64kHash (serializeECDSAPrivateKey x) % 256], ?_, ?_⟩
    · simp [PrivateKey.SerializeBody, List.append_assoc]
    rw [List.cons_append, parse_usage0]
    show ({ PrivateKey.init ⟨.ecdsa, .ecdsa pub, isSub⟩ with
        encryptedData := serializeECDSAPrivateKey x ++
          [mod64kHash (serializeECDSAPrivateKey x) / 256,
           mod64kHash (serializeECDSAPrivateKey x) % 256]
        }).parseECDSAPrivateKey
        (serializeECDSAPrivateKey x ++
          [mod64kHash (serializeECDSAPrivateKey x) / 256,
           mod64kHash (serializeECDSAPrivateKey x) % 256]) = _
    rw [show serializeECDSAPrivateKey x = mpiEncode x from rfl,
      parseECDSAPrivateKey_wire _ pub x _ rfl hx]
    rfl

theorem claim_c1_witness :
    (∃ body,
      ({ PrivateKey.init ⟨.rsa, .rsa ⟨33, 3⟩, false⟩ with
          privateKey := some (.rsa ⟨⟨33, 3⟩, 7, [3, 11], 2⟩) }).SerializeBody []
        = .ok ([] ++ body) ∧
      PrivateKey.parse (fun _ => none) (fun _ => .error .ioUnexpectedEOF)
          ⟨.rsa, .rsa ⟨33, 3⟩, false⟩ body =
        ({ PrivateKey.init ⟨.rsa, .rsa ⟨33, 3⟩, false⟩ with
            privateKey := some (.rsa ⟨⟨33, 3⟩, 7, [11, 3], modInverse 3 11⟩) },
         none)) ∧
    (∃ body,
      ({ PrivateKey.init ⟨.dsa, .dsa ⟨7, 5, 3, 2⟩, false⟩ with
          privateKey := some (.dsa ⟨7, 5, 3, 2⟩ 4) }).SerializeBody []
        = .ok ([] ++ body) ∧
      PrivateKey.parse (fun _ => none) (fun _ => .error .ioUnexpectedEOF)
          ⟨.dsa, .dsa ⟨7, 5, 3, 2⟩, false⟩ body =
        ({ PrivateKey.init ⟨.dsa, .dsa ⟨7, 5, 3, 2⟩, false⟩ with
            privateKey := some (.dsa ⟨7, 5, 3, 2⟩ 4) }, none)) :=
  ⟨claim_c1_serialize_parse_roundtrip.1 (fun _ => none)
     (fun _ => .error .ioUnexpectedEOF) ⟨33, 3⟩ 7 3 11 2 [] false
     (by decide) (by decide) (by decide) (by decide) (by decide) (by decide)
     (by decide) (by decide) (by decide) (by decide),
   claim_c1_serialize_parse_roundtrip.2.1 (fun _ => none)
     (fun _ => .error .ioUnexpectedEOF) ⟨7, 5, 3, 2⟩ 4 [] false (by decide)⟩

/-- C6: for every RSA private-key plaintext in which either stored prime
decodes to the integer 1, the RSA key-material parse returns a validation
error (and leaves the receiver untouched); the embedding is total, so no
arithmetic fault or hang is possible, and the outcome is an ordinary
error, never the panic outcome. -/
theorem claim_c6_rsa_prime_one_validation (pk : PrivateKey)
    (pub : RSAPublicKey) (d other : Nat) (junk : List Nat)
    (hm : pk.publicKey.material = .rsa pub)
    (hd : natBitLen d < 65536) (ho : natBitLen other < 65536) :
    (∃ m, pk.parseRSAPrivateKey
        (mpiEncode d ++ (mpiEncode 1 ++ (mpiEncode other ++ junk))) =
      (pk, some (.validation m))) ∧
    (∃ m, pk.parseRSAPrivateKey
        (mpiEncode d ++ (mpiEncode other ++ (mpiEncode 1 ++ junk))) =
      (pk, some (.validation m))) := by
  constructor
  · obtain ⟨m, hv⟩ := Validate_prime_one pub d 1 other (Or.inl rfl)
    refine ⟨m, ?_⟩
    rw [parseRSAPrivateKey_wire pk pub d 1 other junk hm hd (by decide) ho, hv]
  · obtain ⟨m, hv⟩ := Validate_prime_one pub d other 1 (Or.inr rfl)
    refine ⟨m, ?_⟩
    rw [parseRSAPrivateKey_wire pk pub d other 1 junk hm hd ho (by decide), hv]

theorem claim_c6_witness :
    (∃ m, pkPlain.parseRSAPrivateKey
        (mpiEncode 7 ++ (mpiEncode 1 ++ (mpiEncode 11 ++ []))) =
      (pkPlain, some (.validation m))) ∧
    (∃ m, pkPlain.parseRSAPrivateKey
        (mpiEncode 7 ++ (mpiEncode 11 ++ (mpiEncode 1 ++ []))) =
      (pkPlain, some (.validation m))) :=
  claim_c6_rsa_prime_one_validation pkPlain testRSAPub 7 11 [] rfl
    (by decide) (by decide)

/-- C10: with usage byte 0 (unencrypted), the trailing 2-byte additive
checksum that Serialize emits is never verified: the key-material parse
reads only the required length-prefixed big integers and silently ignores
any remaining bytes, so the packet parses to the same successful result
for every trailer — corrupted, absent, or correct. -/
theorem claim_c10_unencrypted_checksum_ignored (cb : Nat → Option Cipher)
    (sp : List Nat → Except Error ((List Nat → List Nat) × List Nat))
    (pub : RSAPublicKey) (d p q qinv : Nat) (isSub : Bool)
    (he2 : 2 ≤ pub.e) (heMax : pub.e ≤ 2 ^ 31 - 1) (hp1 : 1 < p)
    (hq1 : 1 < q) (hn : p * q = pub.n) (hcp : d * pub.e % (p - 1) = 1)
    (hcq : d * pub.e % (q - 1) = 1) (hd : natBitLen d < 65536)
    (hp : natBitLen p < 65536) (hq : natBitLen q < 65536) :
    ∀ junk : List Nat,
      PrivateKey.parse cb sp ⟨.rsa, .rsa pub, isSub⟩
          (0 :: (serializeRSAPrivateKey ⟨pub, d, [p, q], qinv⟩ ++ junk)) =
        ({ PrivateKey.init ⟨.rsa, .rsa pub, isSub⟩ with
            privateKey := some (.rsa ⟨pub, d, [q, p], modInverse p q⟩) },
         none) := by
  intro junk
  rw [parse_usage0]
  show ({ PrivateKey.init ⟨.rsa, .rsa pub, isSub⟩ with
      encryptedData := serializeRSAPrivateKey ⟨pub, d, [p, q], qinv⟩ ++ junk
      }).parseRSAPrivateKey
      (serializeRSAPrivateKey ⟨pub, d, [p, q], qinv⟩ ++ junk) = _
  rw [serializeRSA_assoc pub d p q qinv junk,
    parseRSAPrivateKey_wire _ pub d q p _ rfl hd hq hp,
    Validate_ok pub d q p he2 heMax hq1 hp1 (by rw [mul_comm]; exact hn)
      hcq hcp]
  rfl

theorem claim_c10_witness :
    PrivateKey.parse (fun _ => none) (fun _ => .error .ioUnexpectedEOF)
        ⟨.rsa, .rsa ⟨33, 3⟩, false⟩
        (0 :: (serializeRSAPrivateKey ⟨⟨33, 3⟩, 7, [3, 11], 2⟩ ++ [0, 34])) =
      PrivateKey.parse (fun _ => none) (fun _ => .error .ioUnexpectedEOF)
        ⟨.rsa, .rsa ⟨33, 3⟩, false⟩
        (0 :: (serializeRSAPrivateKey ⟨⟨33, 3⟩, 7, [3, 11], 2⟩ ++
          [255, 255])) ∧
    PrivateKey.parse (fun _ => none) (fun _ => .error .ioUnexpectedEOF)
        ⟨.rsa, .rsa ⟨33, 3⟩, false⟩
        (0 :: (serializeRSAPrivateKey ⟨⟨33, 3⟩, 7, [3, 11], 2⟩ ++ [])) =
      PrivateKey.parse (fun _ => none) (fun _ => .error .ioUnexpectedEOF)
        ⟨.rsa, .rsa ⟨33, 3⟩, false⟩
        (0 :: (serializeRSAPrivateKey ⟨⟨33, 3⟩, 7, [3, 11], 2⟩ ++
          [255, 255])) ∧
    (PrivateKey.parse (fun _ => none) (fun _ => .error .ioUnexpectedEOF)
        ⟨.rsa, .rsa ⟨33, 3⟩, false⟩
        (0 :: (serializeRSAPrivateKey ⟨⟨33, 3⟩, 7, [3, 11], 2⟩ ++
          [255, 255]))).2 = none := by
  have h := claim_c10_unencrypted_checksum_ignored (fun _ => none)
    (fun _ => .error .ioUnexpectedEOF) ⟨33, 3⟩ 7 3 11 2 false
    (by decide) (by decide) (by decide) (by decide) (by decide) (by decide)
    (by decide) (by decide) (by decide) (by decide)
  exact ⟨(h [0, 34]).trans (h [255, 255]).symm,
    (h []).trans (h [255, 255]).symm, by rw [h [255, 255]]⟩

/-- C5: PrivateKey parse dispatches on the usage byte read after the
public-key portion: 0 means unencrypted with the remaining bytes parsed
immediately as plaintext key material; 254 or 255 means encrypted, with
the next byte resolved to a cipher via the registry (unknown cipher, or
known cipher with zero block size, yields an UnsupportedError), 254
selecting the sha1 checksum mode and 255 the additive16 mode, followed by
the S2K block, an IV of exactly the cipher's block size, and the remaining
bytes as the encrypted blob; any other usage byte yields an
UnsupportedError. -/
theorem claim_c5_parse_usage_dispatch (cb : Nat → Option Cipher)
    (sp : List Nat → Except Error ((List Nat → List Nat) × List Nat))
    (pk0 : PublicKey) :
    (∀ rest, PrivateKey.parse cb sp pk0 (0 :: rest) =
      ({ PrivateKey.init pk0 with encryptedData := rest }).parsePrivateKey
        rest) ∧
    (∀ u cid rest, u = 254 ∨ u = 255 → cb cid = none →
      (PrivateKey.parse cb sp pk0 (u :: cid :: rest)).2 =
        some (.unsupported ("unknown cipher: " ++ toString cid))) ∧
    (∀ u cid c rest f r3, u = 254 ∨ u = 255 → cb cid = some c →
      sp rest = .ok (f, r3) → c.blockSize = 0 →
      (PrivateKey.parse cb sp pk0 (u :: cid :: rest)).2 =
        some (.unsupported
          ("unsupported cipher in private key: " ++ toString c.id))) ∧
    (∀ u cid c rest f r3, u = 254 ∨ u = 255 → cb cid = some c →
      sp rest = .ok (f, r3) → c.blockSize ≠ 0 → c.blockSize ≤ r3.length →
      PrivateKey.parse cb sp pk0 (u :: cid :: rest) =
        ({ PrivateKey.init pk0 with
            Encrypted := true
            encryptedData := r3.drop c.blockSize
            cipher := some c
            s2k := some f
            sha1Checksum := u == 254
            iv := r3.take c.blockSize }, none) ∧
      (r3.take c.blockSize).length = c.blockSize) ∧
    (∀ u rest, u ≠ 0 → u ≠ 254 → u ≠ 255 →
      (PrivateKey.parse cb sp pk0 (u :: rest)).2 =
        some (.unsupported "deprecated s2k function in private key")) := by
  refine ⟨parse_usage0 cb sp pk0, ?_, ?_, ?_, ?_⟩
  · intro u cid rest hu hcb
    have hu0 : ¬ u = 0 := by rcases hu with rfl | rfl <;> omega
    unfold PrivateKey.parse
    dsimp only
    rw [if_neg hu0, if_pos hu, hcb]
  · intro u cid c rest f r3 hu hcb hsp hbs
    have hu0 : ¬ u = 0 := by rcases hu with rfl | rfl <;> omega
    unfold PrivateKey.parse
    dsimp only
    rw [if_neg hu0, if_pos hu, hcb]
    dsimp only
    rw [hsp]
    dsimp only
    rw [if_pos hbs]
  · intro u cid c rest f r3 hu hcb hsp hbs hle
    have hu0 : ¬ u = 0 := by rcases hu with rfl | rfl <;> omega
    constructor
    · unfold PrivateKey.parse
      dsimp only
      rw [if_neg hu0, if_pos hu, hcb]
      dsimp only
      rw [hsp]
      dsimp only
      rw [if_neg hbs, if_pos hle]
      rcases hu with rfl | rfl
      · rw [if_pos rfl]
        rfl
      · rw [if_neg (by omega)]
        rfl
    · rw [List.length_take]
      omega
  · intro u rest hu0 h254 h255
    unfold PrivateKey.parse
    dsimp only
    rw [if_neg hu0, if_neg (fun hor => hor.elim h254 h255)]

/-- A two-entry cipher registry for the witnesses. -/
def cbTest : Nat → Option Cipher :=
  fun n => if n == 9 then some testCipher else none

/-- An S2K block parser that consumes exactly one byte. -/
def spTest : List Nat → Except Error ((List Nat → List Nat) × List Nat) :=
  fun l => .ok (fun _ => [3], l.drop 1)

theorem claim_c5_witness :
    PrivateKey.parse cbTest spTest testPub0
        (254 :: 9 ::
          [1, 2, 3, 4, 5, 6, 7, 8, 9, 10, 11, 12, 13, 14, 15, 16, 17]) =
      ({ PrivateKey.init testPub0 with
          Encrypted := true
          encryptedData := List.drop testCipher.blockSize
            [2, 3, 4, 5, 6, 7, 8, 9, 10, 11, 12, 13, 14, 15, 16, 17]
          cipher := some testCipher
          s2k := some (fun _ => [3])
          sha1Checksum := true
          iv := List.take testCipher.blockSize
            [2, 3, 4, 5, 6, 7, 8, 9, 10, 11, 12, 13, 14, 15, 16, 17] },
       none) ∧
    (List.take testCipher.blockSize
      [2, 3, 4, 5, 6, 7, 8, 9, 10, 11, 12, 13, 14, 15, 16, 17]).length =
      testCipher.blockSize ∧
    (PrivateKey.parse cbTest spTest testPub0 (254 :: 77 :: [])).2 =
      some (.unsupported ("unknown cipher: " ++ toString 77)) ∧
    (PrivateKey.parse cbTest spTest testPub0 (9 :: [5, 6])).2 =
      some (.unsupported "deprecated s2k function in private key") := by
  have h := claim_c5_parse_usage_dispatch cbTest spTest testPub0
  refine ⟨?_, ?_, ?_, ?_⟩
  · exact (h.2.2.2.1 254 9 testCipher
      [1, 2, 3, 4, 5, 6, 7, 8, 9, 10, 11, 12, 13, 14, 15, 16, 17]
      (fun _ => [3])
      [2, 3, 4, 5, 6, 7, 8, 9, 10, 11, 12, 13, 14, 15, 16, 17]
      (Or.inl rfl) rfl rfl (by decide) (by decide)).1
  · exact (h.2.2.2.1 254 9 testCipher
      [1, 2, 3, 4, 5, 6, 7, 8, 9, 10, 11, 12, 13, 14, 15, 16, 17]
      (fun _ => [3])
      [2, 3, 4, 5, 6, 7, 8, 9, 10, 11, 12, 13, 14, 15, 16, 17]
      (Or.inl rfl) rfl rfl (by decide) (by decide)).2
  · exact h.2.1 254 77 [] (Or.inl rfl) rfl
  · exact h.2.2.2.2 9 [5, 6] (by omega) (by omega) (by omega)

/-- C8: evaluation of `SignatureV3.Serialize` on values with no populated
signature fields.  With the fields entirely absent (nil `encoding.Field`
interfaces, the zero value of the struct), the guard's
`sig.RSASignature.Bytes()` call dereferences a nil interface and the
method crashes instead of returning the invalid-argument error; only when
both fields hold fresh (byte-less) MPI values does the documented
"need to call Sign ... before Serialize" invalid-argument error surface.
The two outcomes are distinct error kinds. -/
theorem claim_c8_serialize_unsigned_outcomes :
    (SignatureV3.Serialize
        ⟨0, 0, 0, some .rsa, 2, [0, 0], none, none, none⟩).2 =
      some (.panicked "nil interface method call") ∧
    (SignatureV3.Serialize
        ⟨0, 0, 0, some .rsa, 2, [0, 0], some ⟨none⟩, some ⟨none⟩, none⟩).2 =
      some (.invalidArgument
        "Signature: need to call Sign, SignUserId or SignKey before Serialize") ∧
    ∀ m s, (Error.panicked m) ≠ .invalidArgument s := by
  refine ⟨by decide, by decide, ?_⟩
  intro m s h
  exact Error.noConfusion h

/-! ## C9: Intersect is order-preserving filtering -/

theorem getElem?_of_drop_cons {α : Type} (arr : List α) (i : Nat) (v : α)
    (t : List α) (h : arr.drop i = v :: t) : arr[i]? = some v := by
  have h0 : (arr.drop i)[0]? = some v := by rw [h]; simp
  rw [List.getElem?_drop] at h0
  simpa using h0

theorem take_succ_set {α : Type} (l : List α) (j : Nat) (v : α)
    (hj : j < l.length) : (l.set j v).take (j + 1) = l.take j ++ [v] := by
  rw [List.set_eq_take_append_cons_drop, if_pos hj,
    List.take_append_eq_append_take]
  have hlen : (l.take j).length = j := by
    rw [List.length_take]; omega
  rw [List.take_of_length_le (by omega : (l.take j).length ≤ j + 1), hlen]
  simp

theorem drop_succ_set {α : Type} (l : List α) (i j : Nat) (v : α)
    (hj : j < i + 1) : (l.set j v).drop (i + 1) = l.drop (i + 1) := by
  rw [List.drop_set, if_pos hj]

theorem intersectGo_succ (fuel : Nat) (arr b : List CryptoHash) (i j : Nat) :
    intersectGo (fuel + 1) arr b i j =
      (match arr[i]? with
       | none => (arr, j)
       | some v =>
           if b.any (fun v2 => v.id == v2.id) then
             intersectGo fuel (arr.set j v) b (i + 1) (j + 1)
           else
             intersectGo fuel arr b (i + 1) j) := rfl

/-- Loop invariant of `HashSlice.Intersect`: starting at read index `i` and
write index `j ≤ i`, with `t` the unread suffix, the loop returns the
write index advanced by the number of kept elements and the array whose
first `j'` entries are the previously kept prefix followed by the kept
elements of `t`, in order. -/
theorem intersectGo_spec (b : List CryptoHash) :
    ∀ (t arr : List CryptoHash) (i j : Nat), j ≤ i → arr.drop i = t →
      (intersectGo t.length arr b i j).2 =
        j + (t.filter (fun v => b.any (fun v2 => v.id == v2.id))).length ∧
      (intersectGo t.length arr b i j).1.take
          (intersectGo t.length arr b i j).2 =
        arr.take j ++ t.filter (fun v => b.any (fun v2 => v.id == v2.id)) := by
  intro t
  induction t with
  | nil =>
      intro arr i j hji hdrop
      constructor
      · simp [intersectGo]
      · simp [intersectGo]
  | cons v t ih =>
      intro arr i j hji hdrop
      have hv : arr[i]? = some v := getElem?_of_drop_cons arr i v t hdrop
      have hlen : i < arr.length := by
        by_contra hcon
        rw [List.getElem?_eq_none (by omega)] at hv
        cases hv
      have hdropSucc : arr.drop (i + 1) = t := by
        rw [show i + 1 = i + 1 from rfl, ← List.drop_drop 1 i, hdrop]
        rfl
      simp only [List.length_cons, intersectGo_succ, hv]
      by_cases hkeep : (b.any (fun v2 => v.id == v2.id)) = true
      · rw [if_pos hkeep]
        have hdrop' : (arr.set j v).drop (i + 1) = t := by
          rw [drop_succ_set arr i j v (by omega)]
          exact hdropSucc
        obtain ⟨ih1, ih2⟩ := ih (arr.set j v) (i + 1) (j + 1) (by omega) hdrop'
        constructor
        · rw [ih1, List.filter_cons, if_pos hkeep]
          simp only [List.length_cons]
          omega
        · rw [ih2, take_succ_set arr j v (by omega), List.filter_cons,
            if_pos hkeep]
          simp [List.append_assoc]
      · rw [if_neg hkeep]
        obtain ⟨ih1, ih2⟩ := ih arr (i + 1) j (by omega) hdropSucc
        constructor
        · rw [ih1, List.filter_cons, if_neg hkeep]
        · rw [ih2, List.filter_cons, if_neg hkeep]

/-- C9: `Intersect(a, b)` returns exactly the elements of `a` whose id
also appears in `b`, in `a`'s original relative order; in particular
`Intersect([A, B, C], [C, A]) = [A, C]` (here `A = MD5`, `B = SHA1`,
`C = RIPEMD160`). -/
theorem claim_c9_intersect_preserve_order :
    (∀ a b : List CryptoHash, HashSlice.Intersect a b =
      a.filter (fun v => decide (v.id ∈ b.map CryptoHash.id))) ∧
    HashSlice.Intersect [MD5, SHA1, RIPEMD160] [RIPEMD160, MD5] =
      [MD5, RIPEMD160] := by
  have main : ∀ a b : List CryptoHash, HashSlice.Intersect a b =
      a.filter (fun v => b.any (fun v2 => v.id == v2.id)) := by
    intro a b
    obtain ⟨h1, h2⟩ := intersectGo_spec b a a 0 0 le_rfl rfl
    unfold HashSlice.Intersect
    dsimp only
    rw [h2]
    simp
  constructor
  · intro a b
    rw [main a b]
    refine List.filter_congr ?_
    intro v _
    by_cases hmem : v.id ∈ b.map CryptoHash.id
    · obtain ⟨w, hw, hid⟩ := List.mem_map.mp hmem
      have hany : b.any (fun v2 => v.id == v2.id) = true := by
        rw [List.any_eq_true]
        exact ⟨w, hw, by simp [hid]⟩
      simp [hany, hmem]
    · have hany : b.any (fun v2 => v.id == v2.id) = false := by
        rw [List.any_eq_false]
        intro w hw hcon
        exact hmem (List.mem_map.mpr ⟨w, hw, by
          have := of_decide_eq_true hcon
          omega⟩)
      simp [hany, hmem]
  · decide

end OpenPGP
